import Mathlib

/-!
# si::quantity

A shallow embedding of `quantity.hpp` (namespace `si`) and the properties of
its conversion engine, common-representation resolver and operators.

Modelling conventions.

* Template arguments of type `intmax_t` (the components of a `std::ratio`, the
  arguments of `gcd` and `lcm`) are mathematical integers.  A constant
  expression that overflows makes the program ill-formed, so every value that
  exists in a program that compiles is the value computed here.  The one place
  where the source tests the machine range itself, `__no_overflow`, is
  embedded with the range bound it computes.
* Run-time arithmetic of integral storage is two's-complement `intmax_t`
  arithmetic: every operation is reduced with `wrap`.
* The C++ remainder and quotient on integers truncate toward zero:
  `Int.tmod` and `Int.tdiv`.
* A quantity type `quantity<STORAGE, RATIO, UNITS>` is a record that carries
  its three template arguments next to the stored magnitude.  A function that
  the compiler would reject (a disabled overload, mismatching units) returns
  `none`.
-/

namespace si

/-! ## Machine integers -/

/-- Number of bits in a byte, `CHAR_BIT`. -/
def CHAR_BIT : Nat := 8

/-- Size in bytes of the widest integer type, `sizeof(intmax_t)`. -/
def sizeof_intmax_t : Nat := 8

/-- Reduction of a mathematical integer to the two's-complement `intmax_t`
that has the same low bits. -/
def wrap (x : Int) : Int :=
  (x + 2 ^ (sizeof_intmax_t * CHAR_BIT - 1)) % 2 ^ (sizeof_intmax_t * CHAR_BIT)
    - 2 ^ (sizeof_intmax_t * CHAR_BIT - 1)

/-- Smallest `intmax_t`. -/
def intmax_min : Int := -(2 ^ (sizeof_intmax_t * CHAR_BIT - 1))

/-- Largest `intmax_t`. -/
def intmax_max : Int := 2 ^ (sizeof_intmax_t * CHAR_BIT - 1) - 1

/-- Representability in `intmax_t`: no overflow happens when this value is
produced. -/
def fits (x : Int) : Prop := intmax_min ≤ x ∧ x ≤ intmax_max

instance (x : Int) : Decidable (fits x) := by
  unfold fits; exact inferInstance

/-! ## RatioAlgebra (`quantity.hpp` lines 25-80) -/

/-- Source `gcd_impl<_Xp, _Yp>`: the general template recurses on
`<_Yp, _Xp % _Yp>`, the specialisation `<_Xp, 0>` yields `_Xp` and the full
specialisation `<0, 0>` yields `1`. -/
def gcd_impl (x y : Int) : Int :=
  if y = 0 then
    if x = 0 then 1 else x
  else
    gcd_impl y (x.tmod y)
termination_by y.natAbs
decreasing_by
  have hneg : ∀ a b : Int, (-a).tmod b = -(a.tmod b) := by
    intro a b
    rw [Int.tmod_def, Int.tmod_def, Int.neg_tdiv]
    ring
  have e : (x.tmod y).natAbs = x.natAbs % y.natAbs := by
    obtain ⟨n, rfl | rfl⟩ := Int.eq_nat_or_neg x <;>
      obtain ⟨m, rfl | rfl⟩ := Int.eq_nat_or_neg y <;>
      simp only [Int.tmod_neg, hneg, ← Int.ofNat_tmod, Int.natAbs_neg, Int.natAbs_ofNat]
  rw [e]
  exact Nat.mod_lt _ (by omega)

/-- Source `gcd<_Xp, _Yp>`. -/
def gcd (x y : Int) : Int := gcd_impl x y

/-- Source `lcm_impl<_Xp, _Yp>`: `_Xp / gcd<_Xp, _Yp> * _Yp`. -/
def lcm_impl (x y : Int) : Int := (x.tdiv (gcd x y)) * y

/-- Source `lcm<_Xp, _Yp>`. -/
def lcm (x y : Int) : Int := lcm_impl x y

/-- The members `num` and `den` of an instantiation of `std::ratio`. -/
structure Ratio where
  /-- Member `num`. -/
  num : Int
  /-- Member `den`. -/
  den : Int
deriving DecidableEq, Repr

/-- The instantiation `std::ratio<N, D>` of the standard library
([ratio.ratio]): `num = sign(N) * sign(D) * abs(N) / gcd` and
`den = abs(D) / gcd`, with the mathematical gcd. -/
def std_ratio (N D : Int) : Ratio :=
  { num := Int.sign N * Int.sign D * ((N.natAbs / Int.gcd N D : Nat) : Int)
    den := ((D.natAbs / Int.gcd N D : Nat) : Int) }

/-- The standard `std::ratio_divide<R1, R2>::type` ([ratio.arithmetic]):
`std::ratio<R1::num * R2::den, R1::den * R2::num>`. -/
def ratio_divide (R1 R2 : Ratio) : Ratio :=
  std_ratio (R1.num * R2.den) (R1.den * R2.num)

/-- The standard `std::ratio_multiply<R1, R2>` ([ratio.arithmetic]):
`std::ratio<R1::num * R2::num, R1::den * R2::den>`. -/
def ratio_multiply (R1 R2 : Ratio) : Ratio :=
  std_ratio (R1.num * R2.num) (R1.den * R2.den)

/-- Source `ratio_gcd<_R1, _R2>`:
`std::ratio<gcd<_R1::num, _R2::num>, lcm<_R1::den, _R2::den>>`. -/
def ratio_gcd (R1 R2 : Ratio) : Ratio :=
  std_ratio (gcd R1.num R2.num) (lcm R1.den R2.den)

/-- The rational number a ratio stands for. -/
def Ratio.val (R : Ratio) : ℚ := (R.num : ℚ) / (R.den : ℚ)

/-- The Ratio invariant of the data model: positive numerator and denominator
in lowest terms. -/
def Ratio.wf (R : Ratio) : Prop := 0 < R.num ∧ 0 < R.den ∧ Int.gcd R.num R.den = 1

instance (R : Ratio) : Decidable R.wf := by
  unfold Ratio.wf; exact inferInstance

/-! ## Storage types -/

/-- The classification of an arithmetic storage type that the source
inspects, `std::is_floating_point<STORAGE>`. -/
inductive Storage where
  /-- An integral storage type. -/
  | integral
  /-- A floating-point storage type. -/
  | floating
deriving DecidableEq, Repr

/-- The standard `std::is_floating_point<STORAGE>::value`. -/
def is_floating_point : Storage → Bool
  | Storage.integral => false
  | Storage.floating => true

/-- The standard `std::common_type` of two arithmetic types, by the usual
arithmetic conversions: floating-point as soon as one of the two is. -/
def common_type : Storage → Storage → Storage
  | Storage.integral, Storage.integral => Storage.integral
  | _, _ => Storage.floating

/-- The native operators of the promoted storage type `_Cs` in which an
operation computes, on magnitudes of type `α`.  Conversions between the
storages of the operands and the promoted storage preserve the value. -/
structure Arith (α : Type) where
  /-- Conversion of an `intmax_t` constant, `static_cast<_Cs>(k)`. -/
  cast : Int → α
  /-- Native `+`. -/
  add : α → α → α
  /-- Native `-`. -/
  sub : α → α → α
  /-- Native `*`. -/
  mul : α → α → α
  /-- Native `/`. -/
  div : α → α → α
  /-- Native remainder: the built-in `%` of an integral type; for a
  floating-point type, which has no built-in `%`, the remainder of
  `std::fmod`. -/
  mod : α → α → α
  /-- Native `==`. -/
  eq : α → α → Bool
  /-- Native `<`. -/
  lt : α → α → Bool

/-- Integral storage: the promoted type of signed integral storages with
`intmax_t` is `intmax_t`; its arithmetic is two's-complement, the division
truncating toward zero. -/
def intmax_storage : Arith Int :=
  { cast := fun k => wrap k
    add := fun a b => wrap (a + b)
    sub := fun a b => wrap (a - b)
    mul := fun a b => wrap (a * b)
    div := fun a b => wrap (a.tdiv b)
    mod := fun a b => wrap (a.tmod b)
    eq := fun a b => decide (a = b)
    lt := fun a b => decide (a < b) }

/-- Storage with exact magnitudes: the arithmetic of a floating-point storage
on the inputs where every intermediate result is representable, so that no
operation rounds. -/
def exact_storage : Arith ℚ :=
  { cast := fun k => (k : ℚ)
    add := fun a b => a + b
    sub := fun a b => a - b
    mul := fun a b => a * b
    div := fun a b => a / b
    mod := fun a b => a - b * (((if 0 ≤ a / b then ⌊a / b⌋ else ⌈a / b⌉ : Int)) : ℚ)
    eq := fun a b => decide (a = b)
    lt := fun a b => decide (a < b) }

/-! ## The quantity type -/

/-- An object of type `quantity<STORAGE, RATIO, UNITS>`: the three template
arguments and the data member `mStorage`. -/
structure quantity (α : Type) (U : Type) where
  /-- Template argument `STORAGE`. -/
  storage_t : Storage
  /-- Template argument `RATIO`, as its members `num` and `den`. -/
  ratio_t : Ratio
  /-- Template argument `UNITS`, the dimension signature. -/
  units_t : U
  /-- Data member `mStorage`. -/
  mStorage : α
deriving DecidableEq, Repr

/-- Source `static_assert(RATIO::num > 0, ...)` in the class `quantity`: the
requirement an instantiation `quantity<_, R, _>` puts on its ratio. -/
def quantity.positive_numerator (R : Ratio) : Bool := decide (0 < R.num)

/-- Source `quantity::count()`. -/
def quantity.count {α U : Type} (q : quantity α U) : α := q.mStorage

/-- The physical value of an integral quantity, magnitude times ratio. -/
def quantity.value {U : Type} (q : quantity Int U) : ℚ := (q.count : ℚ) * q.ratio_t.val

/-! ## ConversionEngine (`quantity.hpp` lines 111-246) -/

/-- Source `quantity_cast_impl<FromQ, ToQ, F, F::num == 1, F::den == 1>`, the
four partial specialisations selected by the two booleans. -/
def quantity_cast_impl {α : Type} (A : Arith α) (F : Ratio) (c : α) : α :=
  match decide (F.num = 1), decide (F.den = 1) with
  | true, true => c
  | true, false => A.div c (A.cast F.den)
  | false, true => A.mul c (A.cast F.num)
  | false, false => A.div (A.mul c (A.cast F.num)) (A.cast F.den)

/-- Source `quantity_cast<ToQ>(fq)`, with `ToQ = quantity<ToS, ToR, ToU>`:
enabled when `ToQ::units_t` is the units type of the argument, and then
`quantity_cast_impl` with the default `std::ratio_divide` of the two ratios. -/
def quantity_cast {α U : Type} [DecidableEq U] (A : Arith α)
    (ToS : Storage) (ToR : Ratio) (ToU : U) (fq : quantity α U) : Option (quantity α U) :=
  if ToU = fq.units_t then
    some ⟨ToS, ToR, ToU, quantity_cast_impl A (ratio_divide fq.ratio_t ToR) fq.count⟩
  else
    none

/-! ## Construction rules (`quantity.hpp` lines 277-355) -/

/-- Source `__no_overflow::__gcd_n1_n2`. -/
def __no_overflow.__gcd_n1_n2 (R1 R2 : Ratio) : Int := gcd R1.num R2.num

/-- Source `__no_overflow::__gcd_d1_d2`. -/
def __no_overflow.__gcd_d1_d2 (R1 R2 : Ratio) : Int := gcd R1.den R2.den

/-- Source `__no_overflow::__n1`. -/
def __no_overflow.__n1 (R1 R2 : Ratio) : Int := R1.num.tdiv (__no_overflow.__gcd_n1_n2 R1 R2)

/-- Source `__no_overflow::__d1`. -/
def __no_overflow.__d1 (R1 R2 : Ratio) : Int := R1.den.tdiv (__no_overflow.__gcd_d1_d2 R1 R2)

/-- Source `__no_overflow::__n2`. -/
def __no_overflow.__n2 (R1 R2 : Ratio) : Int := R2.num.tdiv (__no_overflow.__gcd_n1_n2 R1 R2)

/-- Source `__no_overflow::__d2`. -/
def __no_overflow.__d2 (R1 R2 : Ratio) : Int := R2.den.tdiv (__no_overflow.__gcd_d1_d2 R1 R2)

/-- Source `__no_overflow::max`:
`-((intmax_t(1) << (sizeof(intmax_t) * CHAR_BIT - 1)) + 1)`, each operation in
two's-complement `intmax_t`. -/
def __no_overflow.max : Int :=
  wrap (-(wrap (wrap (1 * 2 ^ (sizeof_intmax_t * CHAR_BIT - 1)) + 1)))

/-- Source `__no_overflow::__mul<_Xp, _Yp, __overflow>`: the product, or `1`
in the specialisation for `__overflow == true`. -/
def __no_overflow.__mul (x y : Int) (overflow : Bool) : Int :=
  if overflow then 1 else x * y

/-- Source `__no_overflow<_R1, _R2>::value`. -/
def __no_overflow.value (R1 R2 : Ratio) : Bool :=
  decide (__no_overflow.__n1 R1 R2 ≤ __no_overflow.max.tdiv (__no_overflow.__d2 R1 R2)) &&
  decide (__no_overflow.__n2 R1 R2 ≤ __no_overflow.max.tdiv (__no_overflow.__d1 R1 R2))

/-- Source `__no_overflow<_R1, _R2>::type`. -/
def __no_overflow.type (R1 R2 : Ratio) : Ratio :=
  std_ratio
    (__no_overflow.__mul (__no_overflow.__n1 R1 R2) (__no_overflow.__d2 R1 R2)
      (!__no_overflow.value R1 R2))
    (__no_overflow.__mul (__no_overflow.__n2 R1 R2) (__no_overflow.__d1 R1 R2)
      (!__no_overflow.value R1 R2))

/-- The `enable_if` condition of the explicit constructor from a scalar of
type `STORAGE2` in `quantity<S, _, _>`; `std::is_convertible` holds between
arithmetic types. -/
def quantity.scalar_enabled (S S2 : Storage) : Bool :=
  is_floating_point S || !is_floating_point S2

/-- Source `explicit quantity(const STORAGE2& s)` of `quantity<S, R, u>`. -/
def quantity.of_scalar {α U : Type} (S : Storage) (R : Ratio) (u : U) (S2 : Storage) (s : α) :
    Option (quantity α U) :=
  if quantity.scalar_enabled S S2 then some ⟨S, R, u, s⟩ else none

/-- The `enable_if` condition of the converting constructor of
`quantity<S, R, UNITS>` from a `quantity<S2, R2, UNITS>`. -/
def quantity.convert_enabled (S : Storage) (R : Ratio) (S2 : Storage) (R2 : Ratio) : Bool :=
  __no_overflow.value R2 R &&
    (is_floating_point S ||
      (decide ((__no_overflow.type R2 R).den = 1) && !is_floating_point S2))

/-- Source converting constructor `quantity(const quantity<STORAGE2, RATIO2, UNITS>& q)`
of `quantity<S, R, u>`: it takes a quantity of the same `UNITS` when its
condition holds, and stores `quantity_cast<quantity>(q).count()`. -/
def quantity.convert {α U : Type} [DecidableEq U] (A : Arith α)
    (S : Storage) (R : Ratio) (u : U) (q : quantity α U) : Option (quantity α U) :=
  if u = q.units_t ∧ quantity.convert_enabled S R q.storage_t q.ratio_t = true then
    (quantity_cast A S R u q).map fun r => ⟨S, R, u, r.count⟩
  else
    none

/-- The expression `_Cq(q)` with `_Cq = quantity<S, R, u>`: the copy
constructor when `q` already has type `_Cq`, the converting constructor
otherwise. -/
def quantity.init {α U : Type} [DecidableEq U] (A : Arith α)
    (S : Storage) (R : Ratio) (u : U) (q : quantity α U) : Option (quantity α U) :=
  if q.storage_t = S ∧ q.ratio_t = R ∧ q.units_t = u then some q
  else quantity.convert A S R u q

/-! ## OperatorSuite (`quantity.hpp` lines 387-574) -/

/-- Source `quantity_eq_impl<_LhsQ, _RhsQ>`: the specialisation for two
operands of one type compares the magnitudes, the general template converts
both operands to `std::common_type<_LhsQ, _RhsQ>::type` first. -/
def quantity_eq_impl {α U : Type} [DecidableEq U] (A : Arith α) (lhs rhs : quantity α U) :
    Option Bool :=
  if lhs.storage_t = rhs.storage_t ∧ lhs.ratio_t = rhs.ratio_t ∧ lhs.units_t = rhs.units_t then
    some (A.eq lhs.count rhs.count)
  else
    (quantity.init A (common_type lhs.storage_t rhs.storage_t)
        (ratio_gcd lhs.ratio_t rhs.ratio_t) lhs.units_t lhs).bind fun l =>
    (quantity.init A (common_type lhs.storage_t rhs.storage_t)
        (ratio_gcd lhs.ratio_t rhs.ratio_t) lhs.units_t rhs).bind fun r =>
    some (A.eq l.count r.count)

/-- Source `operator==`: both operands have the same `UNITS`. -/
def operator_eq {α U : Type} [DecidableEq U] (A : Arith α) (lhs rhs : quantity α U) :
    Option Bool :=
  if lhs.units_t = rhs.units_t then quantity_eq_impl A lhs rhs else none

/-- Source `operator!=`: `!(lhs == rhs)`. -/
def operator_ne {α U : Type} [DecidableEq U] (A : Arith α) (lhs rhs : quantity α U) :
    Option Bool :=
  (operator_eq A lhs rhs).map fun b => !b

/-- Source `quantity_lt_impl<_LhsQ, _RhsQ>`, built like `quantity_eq_impl`. -/
def quantity_lt_impl {α U : Type} [DecidableEq U] (A : Arith α) (lhs rhs : quantity α U) :
    Option Bool :=
  if lhs.storage_t = rhs.storage_t ∧ lhs.ratio_t = rhs.ratio_t ∧ lhs.units_t = rhs.units_t then
    some (A.lt lhs.count rhs.count)
  else
    (quantity.init A (common_type lhs.storage_t rhs.storage_t)
        (ratio_gcd lhs.ratio_t rhs.ratio_t) lhs.units_t lhs).bind fun l =>
    (quantity.init A (common_type lhs.storage_t rhs.storage_t)
        (ratio_gcd lhs.ratio_t rhs.ratio_t) lhs.units_t rhs).bind fun r =>
    some (A.lt l.count r.count)

/-- Source `operator<`: both operands have the same `UNITS`. -/
def operator_lt {α U : Type} [DecidableEq U] (A : Arith α) (lhs rhs : quantity α U) :
    Option Bool :=
  if lhs.units_t = rhs.units_t then quantity_lt_impl A lhs rhs else none

/-- Source `operator>`: `rhs < lhs`. -/
def operator_gt {α U : Type} [DecidableEq U] (A : Arith α) (lhs rhs : quantity α U) :
    Option Bool :=
  operator_lt A rhs lhs

/-- Source `operator<=`: `!(rhs < lhs)`. -/
def operator_le {α U : Type} [DecidableEq U] (A : Arith α) (lhs rhs : quantity α U) :
    Option Bool :=
  (operator_lt A rhs lhs).map fun b => !b

/-- Source `operator>=`: `!(lhs < rhs)`. -/
def operator_ge {α U : Type} [DecidableEq U] (A : Arith α) (lhs rhs : quantity α U) :
    Option Bool :=
  (operator_lt A lhs rhs).map fun b => !b

/-- Source `operator+`: `_Cq(_Cq(lhs).count() + _Cq(rhs).count())` with `_Cq`
the common type of the two operand types. -/
def operator_plus {α U : Type} [DecidableEq U] (A : Arith α) (lhs rhs : quantity α U) :
    Option (quantity α U) :=
  if lhs.units_t = rhs.units_t then
    (quantity.init A (common_type lhs.storage_t rhs.storage_t)
        (ratio_gcd lhs.ratio_t rhs.ratio_t) lhs.units_t lhs).bind fun l =>
    (quantity.init A (common_type lhs.storage_t rhs.storage_t)
        (ratio_gcd lhs.ratio_t rhs.ratio_t) lhs.units_t rhs).bind fun r =>
    quantity.of_scalar (common_type lhs.storage_t rhs.storage_t)
      (ratio_gcd lhs.ratio_t rhs.ratio_t) lhs.units_t
      (common_type lhs.storage_t rhs.storage_t) (A.add l.count r.count)
  else
    none

/-- Source `operator-`: `_Cq(_Cq(lhs).count() - _Cq(rhs).count())`. -/
def operator_minus {α U : Type} [DecidableEq U] (A : Arith α) (lhs rhs : quantity α U) :
    Option (quantity α U) :=
  if lhs.units_t = rhs.units_t then
    (quantity.init A (common_type lhs.storage_t rhs.storage_t)
        (ratio_gcd lhs.ratio_t rhs.ratio_t) lhs.units_t lhs).bind fun l =>
    (quantity.init A (common_type lhs.storage_t rhs.storage_t)
        (ratio_gcd lhs.ratio_t rhs.ratio_t) lhs.units_t rhs).bind fun r =>
    quantity.of_scalar (common_type lhs.storage_t rhs.storage_t)
      (ratio_gcd lhs.ratio_t rhs.ratio_t) lhs.units_t
      (common_type lhs.storage_t rhs.storage_t) (A.sub l.count r.count)
  else
    none

/-- Source primary template `quantity_eq_impl<_LhsQ, _RhsQ>`, the general path:
both operands are converted to `std::common_type<_LhsQ, _RhsQ>::type` and the
magnitudes compared there. -/
def quantity_eq_impl_general {α U : Type} [DecidableEq U] (A : Arith α)
    (lhs rhs : quantity α U) : Option Bool :=
  (quantity.init A (common_type lhs.storage_t rhs.storage_t)
      (ratio_gcd lhs.ratio_t rhs.ratio_t) lhs.units_t lhs).bind fun l =>
  (quantity.init A (common_type lhs.storage_t rhs.storage_t)
      (ratio_gcd lhs.ratio_t rhs.ratio_t) lhs.units_t rhs).bind fun r =>
  some (A.eq l.count r.count)

/-- Source specialisation `quantity_eq_impl<_LhsQ, _LhsQ>`, the fast path:
the magnitudes are compared directly. -/
def quantity_eq_impl_same {α U : Type} (A : Arith α) (lhs rhs : quantity α U) : Option Bool :=
  some (A.eq lhs.count rhs.count)

/-- Source primary template `quantity_lt_impl<_LhsQ, _RhsQ>`, the general path. -/
def quantity_lt_impl_general {α U : Type} [DecidableEq U] (A : Arith α)
    (lhs rhs : quantity α U) : Option Bool :=
  (quantity.init A (common_type lhs.storage_t rhs.storage_t)
      (ratio_gcd lhs.ratio_t rhs.ratio_t) lhs.units_t lhs).bind fun l =>
  (quantity.init A (common_type lhs.storage_t rhs.storage_t)
      (ratio_gcd lhs.ratio_t rhs.ratio_t) lhs.units_t rhs).bind fun r =>
  some (A.lt l.count r.count)

/-- Source specialisation `quantity_lt_impl<_LhsQ, _LhsQ>`, the fast path. -/
def quantity_lt_impl_same {α U : Type} (A : Arith α) (lhs rhs : quantity α U) : Option Bool :=
  some (A.lt lhs.count rhs.count)

/-! ## OperatorSuite, scalar and cross-dimension operators
(`quantity.hpp` lines 576-963) -/

/-- The argument bound to a deduced template parameter `STORAGE2`: a scalar of
an arithmetic type, or a quantity. -/
inductive Operand (α U : Type) where
  /-- A scalar of the arithmetic type `S2`. -/
  | of_scalar (S2 : Storage) (s : α)
  /-- A quantity. -/
  | of_quantity (q : quantity α U)

/-- Source `is_quantity<T>`. -/
def is_quantity {α U : Type} : Operand α U → Bool
  | Operand.of_scalar _ _ => false
  | Operand.of_quantity _ => true

/-- Source `operator*` of a quantity and a scalar: enabled when `STORAGE2` is
not a quantity (`std::is_convertible` holds between arithmetic types), and
then `_Cq(_Cq(q).count() * static_cast<_Cs>(s))` with
`_Cq = quantity<_Cs, R, UNITS>` and `_Cs` the common type of the two
storages. -/
def operator_times_scalar {α U : Type} [DecidableEq U] (A : Arith α) (q : quantity α U)
    (rhs : Operand α U) : Option (quantity α U) :=
  match rhs with
  | Operand.of_quantity _ => none
  | Operand.of_scalar S2 s =>
    (quantity.init A (common_type q.storage_t S2) q.ratio_t q.units_t q).bind fun l =>
    quantity.of_scalar (common_type q.storage_t S2) q.ratio_t q.units_t
      (common_type q.storage_t S2) (A.mul l.count s)

/-- Source `operator*` of a scalar and a quantity: the same condition, and
`return q * s`. -/
def operator_scalar_times {α U : Type} [DecidableEq U] (A : Arith α) (lhs : Operand α U)
    (q : quantity α U) : Option (quantity α U) :=
  match lhs with
  | Operand.of_quantity _ => none
  | Operand.of_scalar S2 s => operator_times_scalar A q (Operand.of_scalar S2 s)

/-- The expression `lhs * rhs` on two quantities. The overloads of `operator*`
that are compiled are the two with a scalar operand; the template for two
quantities stands between `#if 0` and `#endif`. -/
def operator_times_quantities {α U : Type} [DecidableEq U] (A : Arith α)
    (lhs rhs : quantity α U) : Option (quantity α U) :=
  match operator_times_scalar A lhs (Operand.of_quantity rhs) with
  | some r => some r
  | none => operator_scalar_times A (Operand.of_quantity lhs) rhs

/-- Source `__quantity_divide_result<_Q, STORAGE2>::type`: the primary template,
selected when `STORAGE2` is a quantity, has no member `type`; otherwise
`__quantity_divide_imp` gives `quantity<common_type<STORAGE1, STORAGE2>, R, UNITS>`,
returned here as its storage. -/
def __quantity_divide_result {α U : Type} (q : quantity α U) (rhs : Operand α U) :
    Option Storage :=
  match rhs with
  | Operand.of_quantity _ => none
  | Operand.of_scalar S2 _ => some (common_type q.storage_t S2)

/-- Source `operator/` of a quantity and a scalar:
`_Cq(_Cq(q).count() / static_cast<_Cs>(s))`. -/
def operator_div_scalar {α U : Type} [DecidableEq U] (A : Arith α) (q : quantity α U)
    (rhs : Operand α U) : Option (quantity α U) :=
  match rhs with
  | Operand.of_quantity _ => none
  | Operand.of_scalar S2 s =>
    (__quantity_divide_result q (Operand.of_scalar S2 s)).bind fun Cs =>
    (quantity.init A Cs q.ratio_t q.units_t q).bind fun l =>
    quantity.of_scalar Cs q.ratio_t q.units_t Cs (A.div l.count s)

/-- Source `operator/` of two quantities of the same `UNITS`:
`_Cq(lhs).count() / _Cq(rhs).count()`, a scalar of the common storage. -/
def operator_div {α U : Type} [DecidableEq U] (A : Arith α) (lhs rhs : quantity α U) :
    Option α :=
  if lhs.units_t = rhs.units_t then
    (quantity.init A (common_type lhs.storage_t rhs.storage_t)
        (ratio_gcd lhs.ratio_t rhs.ratio_t) lhs.units_t lhs).bind fun l =>
    (quantity.init A (common_type lhs.storage_t rhs.storage_t)
        (ratio_gcd lhs.ratio_t rhs.ratio_t) lhs.units_t rhs).bind fun r =>
    some (A.div l.count r.count)
  else
    none

/-- Source `operator/` of two quantities of different `UNITS`, enabled by
`!std::is_same<UNITS1, UNITS2>`: `_Cq(lhs.count() / rhs.count())` with
`_Cq = __diff_units_result`, the quantity of the common storage, of ratio
`std::ratio_divide<R1, R2>` and of units `divide_units<UNITS1, UNITS2>`. The
combinator `divide_units` of `units.hpp` is a parameter. -/
def operator_div_units {α U : Type} [DecidableEq U] (A : Arith α) (divide_units : U → U → U)
    (lhs rhs : quantity α U) : Option (quantity α U) :=
  if lhs.units_t ≠ rhs.units_t then
    quantity.of_scalar (common_type lhs.storage_t rhs.storage_t)
      (ratio_divide lhs.ratio_t rhs.ratio_t) (divide_units lhs.units_t rhs.units_t)
      (common_type lhs.storage_t rhs.storage_t) (A.div lhs.count rhs.count)
  else
    none

/-- Source `operator%` of a quantity and a scalar:
`_Cq(_Cq(q).count() % static_cast<_Cs>(s))`. The built-in `%` takes integral
operands only, so the body does not compile for a floating-point `_Cs`. -/
def operator_mod_scalar {α U : Type} [DecidableEq U] (A : Arith α) (q : quantity α U)
    (rhs : Operand α U) : Option (quantity α U) :=
  match rhs with
  | Operand.of_quantity _ => none
  | Operand.of_scalar S2 s =>
    (__quantity_divide_result q (Operand.of_scalar S2 s)).bind fun Cs =>
    if is_floating_point Cs then none
    else
      (quantity.init A Cs q.ratio_t q.units_t q).bind fun l =>
      quantity.of_scalar Cs q.ratio_t q.units_t Cs (A.mod l.count s)

/-- Source `operator%` of two quantities of the same `UNITS`:
`_Cq(static_cast<_Cs>(_Cq(lhs).count()) % static_cast<_Cs>(_Cq(rhs).count()))`.
The built-in `%` takes integral operands only. -/
def operator_mod {α U : Type} [DecidableEq U] (A : Arith α) (lhs rhs : quantity α U) :
    Option (quantity α U) :=
  if lhs.units_t = rhs.units_t then
    if is_floating_point (common_type lhs.storage_t rhs.storage_t) then none
    else
      (quantity.init A (common_type lhs.storage_t rhs.storage_t)
          (ratio_gcd lhs.ratio_t rhs.ratio_t) lhs.units_t lhs).bind fun l =>
      (quantity.init A (common_type lhs.storage_t rhs.storage_t)
          (ratio_gcd lhs.ratio_t rhs.ratio_t) lhs.units_t rhs).bind fun r =>
      quantity.of_scalar (common_type lhs.storage_t rhs.storage_t)
        (ratio_gcd lhs.ratio_t rhs.ratio_t) lhs.units_t
        (common_type lhs.storage_t rhs.storage_t) (A.mod l.count r.count)
  else
    none

/-- Source `multiply<UNITS>(lhs, rhs)`: `RT{ CS(CS(lhs.count()) * CS(rhs.count())) }`
with `RT = multiply_result`, the quantity of the common storage `CS`, of ratio
`std::ratio_multiply<R1, R2>` and of the units `T` the caller names. -/
def multiply {α U : Type} (A : Arith α) (T : U) (lhs rhs : quantity α U) :
    Option (quantity α U) :=
  quantity.of_scalar (common_type lhs.storage_t rhs.storage_t)
    (ratio_multiply lhs.ratio_t rhs.ratio_t) T
    (common_type lhs.storage_t rhs.storage_t) (A.mul lhs.count rhs.count)

/-- Source `divide<UNITS>(lhs, rhs)`: `RT{ CS(CS(lhs.count()) / CS(rhs.count())) }`
with `RT = divide_result`, the quantity of the common storage `CS`, of ratio
`std::ratio_divide<R1, R2>` and of the units `T` the caller names. -/
def divide {α U : Type} (A : Arith α) (T : U) (lhs rhs : quantity α U) :
    Option (quantity α U) :=
  quantity.of_scalar (common_type lhs.storage_t rhs.storage_t)
    (ratio_divide lhs.ratio_t rhs.ratio_t) T
    (common_type lhs.storage_t rhs.storage_t) (A.div lhs.count rhs.count)

/-! ## Auxiliary lemmas -/

theorem fits_iff (x : Int) : fits x ↔ -9223372036854775808 ≤ x ∧ x ≤ 9223372036854775807 := by
  unfold fits intmax_min intmax_max sizeof_intmax_t CHAR_BIT
  norm_num

theorem wrap_def (x : Int) :
    wrap x = (x + 9223372036854775808) % 18446744073709551616 - 9223372036854775808 := by
  unfold wrap sizeof_intmax_t CHAR_BIT
  norm_num

theorem wrap_of_fits {x : Int} (h : fits x) : wrap x = x := by
  rw [fits_iff] at h
  rw [wrap_def]
  omega

theorem fits_wrap (x : Int) : fits (wrap x) := by
  rw [fits_iff, wrap_def]
  omega

theorem wrap_wrap (x : Int) : wrap (wrap x) = wrap x := wrap_of_fits (fits_wrap x)

theorem fits_one : fits 1 := by
  rw [fits_iff]; omega

theorem tdiv_bounds (c d : Int) (hd : 0 < d) :
    (0 ≤ c → 0 ≤ c.tdiv d ∧ c.tdiv d ≤ c) ∧ (c ≤ 0 → c ≤ c.tdiv d ∧ c.tdiv d ≤ 0) := by
  constructor
  · intro hc
    refine ⟨Int.tdiv_nonneg hc hd.le, ?_⟩
    rw [Int.tdiv_eq_ediv hc hd.le]
    exact Int.ediv_le_self d hc
  · intro hc
    have h0 : 0 ≤ -c := by omega
    have h1 := Int.tdiv_nonneg h0 hd.le
    have h2 : (-c).tdiv d ≤ -c := by
      rw [Int.tdiv_eq_ediv h0 hd.le]
      exact Int.ediv_le_self d h0
    rw [Int.neg_tdiv] at h1 h2
    omega

theorem fits_tdiv {c d : Int} (hc : fits c) (hd : 0 < d) : fits (c.tdiv d) := by
  rw [fits_iff] at hc ⊢
  have h := tdiv_bounds c d hd
  rcases le_total 0 c with h0 | h0
  · have := h.1 h0; omega
  · have := h.2 h0; omega

/-! ### The source gcd and lcm against the mathematical ones -/

theorem gcd_impl_natCast (y x : Nat) :
    gcd_impl (x : Int) (y : Int) = if x = 0 ∧ y = 0 then 1 else ((Nat.gcd x y : Nat) : Int) := by
  induction y using Nat.strong_induction_on generalizing x with
  | _ y ih =>
    rw [gcd_impl]
    by_cases hy : y = 0
    · subst hy
      by_cases hx : x = 0 <;> simp [hx]
    · have hy' : ¬ ((y : Int) = 0) := by exact_mod_cast hy
      rw [if_neg hy', ← Int.ofNat_tmod, ih (x % y) (Nat.mod_lt _ (Nat.pos_of_ne_zero hy)) y]
      simp only [hy, false_and, and_false, if_false]
      rw [Nat.gcd_comm x y, Nat.gcd_rec y x, Nat.gcd_comm]

theorem gcd_of_nonneg {x y : Int} (hx : 0 ≤ x) (hy : 0 ≤ y) :
    gcd x y = if x = 0 ∧ y = 0 then 1 else (Int.gcd x y : Int) := by
  obtain ⟨n, rfl⟩ := Int.eq_ofNat_of_zero_le hx
  obtain ⟨m, rfl⟩ := Int.eq_ofNat_of_zero_le hy
  unfold gcd
  rw [gcd_impl_natCast]
  simp [Int.gcd_eq_natAbs]

theorem gcd_of_pos {x y : Int} (hx : 0 < x) (hy : 0 ≤ y) : gcd x y = (Int.gcd x y : Int) := by
  rw [gcd_of_nonneg hx.le hy, if_neg]
  omega

theorem lcm_of_pos {x y : Int} (hx : 0 < x) (hy : 0 < y) : lcm x y = (Int.lcm x y : Int) := by
  unfold lcm lcm_impl
  rw [gcd_of_pos hx hy.le]
  have hg : (0 : Int) < (Int.gcd x y : Int) := by
    exact_mod_cast Int.gcd_pos_of_ne_zero_left y hx.ne'
  rw [Int.tdiv_eq_ediv hx.le hg.le]
  have h := Int.gcd_mul_lcm x y
  have h' : ((Int.gcd x y : Int)) * (Int.lcm x y : Int) = x * y := by
    have : ((x * y).natAbs : Int) = x * y := Int.natAbs_of_nonneg (by positivity)
    rw [← this]
    exact_mod_cast h
  have hd : (Int.gcd x y : Int) ∣ x := Int.gcd_dvd_left
  obtain ⟨k, hk⟩ := hd
  have hk' : x / (Int.gcd x y : Int) = k :=
    Int.ediv_eq_of_eq_mul_right hg.ne' hk
  rw [hk']
  have : (Int.gcd x y : Int) * (Int.lcm x y : Int) = (Int.gcd x y : Int) * (k * y) := by
    rw [h', ← mul_assoc, ← hk]
  exact (mul_left_cancel₀ hg.ne' this).symm

/-! ### Normalisation by `std::ratio` -/

theorem std_ratio_of_pos {N D : Int} (hN : 0 < N) (hD : 0 < D) :
    std_ratio N D = ⟨N / (Int.gcd N D : Int), D / (Int.gcd N D : Int)⟩ := by
  unfold std_ratio
  rw [Int.sign_eq_one_of_pos hN, Int.sign_eq_one_of_pos hD, Int.natCast_div, Int.natCast_div,
    Int.natAbs_of_nonneg hN.le, Int.natAbs_of_nonneg hD.le]
  simp

theorem std_ratio_of_coprime {N D : Int} (hN : 0 < N) (hD : 0 < D) (h : Int.gcd N D = 1) :
    std_ratio N D = ⟨N, D⟩ := by
  rw [std_ratio_of_pos hN hD, h]
  simp

theorem std_ratio_wf {N D : Int} (hN : 0 < N) (hD : 0 < D) : (std_ratio N D).wf := by
  have hg : 0 < Int.gcd N D := Int.gcd_pos_of_ne_zero_left D hN.ne'
  have hg' : (0 : Int) < (Int.gcd N D : Int) := by exact_mod_cast hg
  rw [std_ratio_of_pos hN hD]
  refine ⟨Int.ediv_pos_of_pos_of_dvd hN hg'.le Int.gcd_dvd_left,
    Int.ediv_pos_of_pos_of_dvd hD hg'.le Int.gcd_dvd_right, Int.gcd_div_gcd_div_gcd hg⟩

theorem std_ratio_val {N D : Int} (hN : 0 < N) (hD : 0 < D) :
    (std_ratio N D).val = (N : ℚ) / (D : ℚ) := by
  have hg : 0 < Int.gcd N D := Int.gcd_pos_of_ne_zero_left D hN.ne'
  have hg' : ((Int.gcd N D : Int) : ℚ) ≠ 0 := by exact_mod_cast hg.ne'
  rw [std_ratio_of_pos hN hD]
  unfold Ratio.val
  simp only
  rw [Int.cast_div Int.gcd_dvd_left hg', Int.cast_div Int.gcd_dvd_right hg']
  have hD' : (D : ℚ) ≠ 0 := by exact_mod_cast hD.ne'
  field_simp

theorem Ratio.val_pos {R : Ratio} (h : R.wf) : 0 < R.val := by
  unfold Ratio.val
  have h1 : (0 : ℚ) < R.num := by exact_mod_cast h.1
  have h2 : (0 : ℚ) < R.den := by exact_mod_cast h.2.1
  positivity

theorem ratio_divide_wf {R1 R2 : Ratio} (h1 : R1.wf) (h2 : R2.wf) : (ratio_divide R1 R2).wf :=
  std_ratio_wf (mul_pos h1.1 h2.2.1) (mul_pos h1.2.1 h2.1)

theorem ratio_divide_val {R1 R2 : Ratio} (h1 : R1.wf) (h2 : R2.wf) :
    (ratio_divide R1 R2).val = R1.val / R2.val := by
  unfold ratio_divide
  rw [std_ratio_val (mul_pos h1.1 h2.2.1) (mul_pos h1.2.1 h2.1)]
  unfold Ratio.val
  have a1 : (R1.den : ℚ) ≠ 0 := by exact_mod_cast h1.2.1.ne'
  have a2 : (R2.den : ℚ) ≠ 0 := by exact_mod_cast h2.2.1.ne'
  have a3 : (R2.num : ℚ) ≠ 0 := by exact_mod_cast h2.1.ne'
  push_cast
  field_simp

/-! ### The conversion engine on integral storage -/

theorem quantity_cast_impl_general (F : Ratio) (c : Int) (hc : fits c) :
    quantity_cast_impl intmax_storage F c =
      intmax_storage.div (intmax_storage.mul c (intmax_storage.cast F.num))
        (intmax_storage.cast F.den) := by
  unfold quantity_cast_impl intmax_storage
  by_cases hn : F.num = 1 <;> by_cases hd : F.den = 1 <;>
    simp [hn, hd, wrap_of_fits fits_one, wrap_of_fits hc, wrap_wrap]

theorem quantity_cast_impl_exact (F : Ratio) (c : Int) (hn : fits F.num) (hd : fits F.den)
    (hpos : 0 < F.den) (hc : fits c) (hm : fits (c * F.num)) :
    quantity_cast_impl intmax_storage F c = (c * F.num).tdiv F.den := by
  rw [quantity_cast_impl_general F c hc]
  simp only [intmax_storage]
  rw [wrap_of_fits hn, wrap_of_fits hd, wrap_of_fits hm, wrap_of_fits (fits_tdiv hm hpos)]

/-! ### Truncating division against the rational quotient -/

theorem tdiv_eq_floor {a b : Int} (ha : 0 ≤ a) (hb : 0 < b) :
    a.tdiv b = ⌊(a : ℚ) / (b : ℚ)⌋ := by
  obtain ⟨d, rfl⟩ := Int.eq_ofNat_of_zero_le hb.le
  rw [Int.tdiv_eq_ediv ha hb.le]
  exact (Rat.floor_intCast_div_natCast a d).symm

theorem tdiv_eq_ceil {a b : Int} (ha : a ≤ 0) (hb : 0 < b) :
    a.tdiv b = ⌈(a : ℚ) / (b : ℚ)⌉ := by
  have h := tdiv_eq_floor (a := -a) (b := b) (by omega) hb
  rw [Int.neg_tdiv] at h
  have e : ((-a : Int) : ℚ) / (b : ℚ) = -((a : ℚ) / (b : ℚ)) := by
    push_cast; ring
  rw [e, Int.floor_neg] at h
  omega

theorem tdiv_eq_trunc (a b : Int) (hb : 0 < b) :
    a.tdiv b = if 0 ≤ (a : ℚ) / (b : ℚ) then ⌊(a : ℚ) / (b : ℚ)⌋ else ⌈(a : ℚ) / (b : ℚ)⌉ := by
  have hb' : (0 : ℚ) < b := by exact_mod_cast hb
  by_cases h : 0 ≤ (a : ℚ) / (b : ℚ)
  · rw [if_pos h]
    have : (0 : ℚ) ≤ a := by
      have := mul_nonneg h hb'.le
      rwa [div_mul_cancel₀ _ hb'.ne'] at this
    exact tdiv_eq_floor (by exact_mod_cast this) hb
  · rw [if_neg h]
    have : (a : ℚ) ≤ 0 := by
      by_contra hc
      exact h (div_nonneg (le_of_lt (not_le.mp hc)) hb'.le)
    exact tdiv_eq_ceil (by exact_mod_cast this) hb

theorem ratio_scale_eq {R1 R2 : Ratio} (h1 : R1.wf) (h2 : R2.wf) (c : Int) :
    ((c * (ratio_divide R1 R2).num : Int) : ℚ) / ((ratio_divide R1 R2).den : ℚ) =
      (c : ℚ) * R1.val / R2.val := by
  have hv := ratio_divide_val h1 h2
  unfold Ratio.val at hv
  push_cast
  rw [mul_div_assoc, hv, mul_div_assoc]
  rfl

theorem ratio_divide_self {R : Ratio} (hn : 0 < R.num) (hd : 0 < R.den) :
    ratio_divide R R = ⟨1, 1⟩ := by
  unfold ratio_divide
  have hp : 0 < R.num * R.den := mul_pos hn hd
  rw [mul_comm R.den R.num, std_ratio_of_pos hp hp, Int.gcd_self, Int.natAbs_of_nonneg hp.le,
    Int.ediv_self hp.ne']

/-! ### The common ratio -/

theorem gcd_lcm_coprime {R1 R2 : Ratio} (h1 : R1.wf) (h2 : R2.wf) :
    IsCoprime (Int.gcd R1.num R2.num : Int) (Int.lcm R1.den R2.den : Int) := by
  have c1 : IsCoprime R1.num R1.den := Int.isCoprime_iff_gcd_eq_one.mpr h1.2.2
  have c2 : IsCoprime R2.num R2.den := Int.isCoprime_iff_gcd_eq_one.mpr h2.2.2
  have g1 : IsCoprime (Int.gcd R1.num R2.num : Int) R1.den :=
    IsCoprime.of_isCoprime_of_dvd_left c1 Int.gcd_dvd_left
  have g2 : IsCoprime (Int.gcd R1.num R2.num : Int) R2.den :=
    IsCoprime.of_isCoprime_of_dvd_left c2 Int.gcd_dvd_right
  exact IsCoprime.of_isCoprime_of_dvd_right (g1.mul_right g2)
    (Int.lcm_dvd (dvd_mul_right _ _) (dvd_mul_left _ _))

theorem gcd_lcm_pos {R1 R2 : Ratio} (h1 : R1.wf) (h2 : R2.wf) :
    (0 : Int) < (Int.gcd R1.num R2.num : Int) ∧ (0 : Int) < (Int.lcm R1.den R2.den : Int) := by
  constructor
  · exact_mod_cast Int.gcd_pos_of_ne_zero_left R2.num h1.1.ne'
  · exact_mod_cast Nat.pos_of_ne_zero (Int.lcm_ne_zero h1.2.1.ne' h2.2.1.ne')

theorem ratio_gcd_of_wf {R1 R2 : Ratio} (h1 : R1.wf) (h2 : R2.wf) :
    ratio_gcd R1 R2 = ⟨(Int.gcd R1.num R2.num : Int), (Int.lcm R1.den R2.den : Int)⟩ := by
  unfold ratio_gcd
  rw [gcd_of_pos h1.1 h2.1.le, lcm_of_pos h1.2.1 h2.2.1]
  exact std_ratio_of_coprime (gcd_lcm_pos h1 h2).1 (gcd_lcm_pos h1 h2).2
    (Int.isCoprime_iff_gcd_eq_one.mp (gcd_lcm_coprime h1 h2))

theorem ratio_gcd_wf {R1 R2 : Ratio} (h1 : R1.wf) (h2 : R2.wf) : (ratio_gcd R1 R2).wf := by
  rw [ratio_gcd_of_wf h1 h2]
  exact ⟨(gcd_lcm_pos h1 h2).1, (gcd_lcm_pos h1 h2).2,
    Int.isCoprime_iff_gcd_eq_one.mp (gcd_lcm_coprime h1 h2)⟩

/-- The integer by which a magnitude at ratio `R` is multiplied to be expressed
at a finer ratio `G` whose numerator divides that of `R` and whose denominator
is a multiple of that of `R`. -/
theorem val_eq_mul_of_dvd {R G : Ratio} (hR : R.wf) (hG : G.wf) (hn : G.num ∣ R.num)
    (hd : R.den ∣ G.den) :
    0 < (R.num / G.num) * (G.den / R.den) ∧
      R.val = (((R.num / G.num) * (G.den / R.den) : Int) : ℚ) * G.val := by
  obtain ⟨a, ha⟩ := hn
  obtain ⟨b, hb⟩ := hd
  have ha' : R.num / G.num = a := Int.ediv_eq_of_eq_mul_right hG.1.ne' ha
  have hb' : G.den / R.den = b := Int.ediv_eq_of_eq_mul_right hR.2.1.ne' hb
  have apos : 0 < a := by
    have := hR.1
    rw [ha] at this
    rcases lt_trichotomy a 0 with h | h | h
    · nlinarith [hG.1]
    · rw [h] at this; simp at this
    · exact h
  have bpos : 0 < b := by
    have := hG.2.1
    rw [hb] at this
    rcases lt_trichotomy b 0 with h | h | h
    · nlinarith [hR.2.1]
    · rw [h] at this; simp at this
    · exact h
  rw [ha', hb']
  refine ⟨mul_pos apos bpos, ?_⟩
  unfold Ratio.val
  have e1 : (R.den : ℚ) ≠ 0 := by exact_mod_cast hR.2.1.ne'
  have e2 : (G.den : ℚ) ≠ 0 := by exact_mod_cast hG.2.1.ne'
  have ha2 : (R.num : ℚ) = G.num * a := by exact_mod_cast ha
  have hb2 : (G.den : ℚ) = R.den * b := by exact_mod_cast hb
  have e3 : (b : ℚ) ≠ 0 := by exact_mod_cast bpos.ne'
  rw [ha2, hb2]
  push_cast
  field_simp
  ring

theorem dvd_of_val_div_int {R : Ratio} (hR : R.wf) {Q : ℚ} (hQ : 0 < Q) {a : Int}
    (h : R.val / Q = (a : ℚ)) : Q.num ∣ R.num ∧ R.den ∣ (Q.den : Int) := by
  have hq : (Q.den : ℚ) ≠ 0 := by exact_mod_cast Q.den_pos.ne'
  have hd : (R.den : ℚ) ≠ 0 := by exact_mod_cast hR.2.1.ne'
  have hQe : Q = (Q.num : ℚ) / (Q.den : ℚ) := (Rat.num_div_den Q).symm
  have hp : (Q.num : ℚ) ≠ 0 := by
    have : 0 < Q.num := Rat.num_pos.mpr hQ
    exact_mod_cast this.ne'
  have key : (R.num : ℚ) * (Q.den : ℚ) = (a : ℚ) * (Q.num : ℚ) * (R.den : ℚ) := by
    have h' := h
    unfold Ratio.val at h'
    rw [hQe] at h'
    field_simp at h'
    linarith
  have keyZ : R.num * (Q.den : Int) = a * Q.num * R.den := by exact_mod_cast key
  have cop : IsCoprime Q.num (Q.den : Int) := by
    rw [Int.isCoprime_iff_gcd_eq_one, Int.gcd_eq_natAbs]
    simpa using Q.reduced
  have copR : IsCoprime R.den R.num :=
    (Int.isCoprime_iff_gcd_eq_one.mpr hR.2.2).symm
  constructor
  · exact cop.dvd_of_dvd_mul_right ⟨a * R.den, by rw [keyZ]; ring⟩
  · exact copR.dvd_of_dvd_mul_left ⟨a * Q.num, by rw [keyZ]; ring⟩

/-! ### The reduced quotient of two ratios -/

theorem std_ratio_mul_left {k x y : Int} (hk : 0 < k) (hx : 0 < x) (hy : 0 < y) :
    std_ratio (k * x) (k * y) = std_ratio x y := by
  have hg : (0 : Int) < (Int.gcd x y : Int) := by
    exact_mod_cast Int.gcd_pos_of_ne_zero_left y hx.ne'
  rw [std_ratio_of_pos (mul_pos hk hx) (mul_pos hk hy), std_ratio_of_pos hx hy,
    Int.gcd_mul_left]
  push_cast
  rw [abs_of_pos hk, Int.mul_ediv_mul_of_pos _ _ hk, Int.mul_ediv_mul_of_pos _ _ hk]

theorem ratio_divide_explicit {R1 R2 : Ratio} (h1 : R1.wf) (h2 : R2.wf) :
    ratio_divide R1 R2 =
      ⟨(R1.num / (Int.gcd R1.num R2.num : Int)) * (R2.den / (Int.gcd R1.den R2.den : Int)),
       (R2.num / (Int.gcd R1.num R2.num : Int)) * (R1.den / (Int.gcd R1.den R2.den : Int))⟩ := by
  have gn : 0 < Int.gcd R1.num R2.num := Int.gcd_pos_of_ne_zero_left _ h1.1.ne'
  have gd : 0 < Int.gcd R1.den R2.den := Int.gcd_pos_of_ne_zero_left _ h1.2.1.ne'
  have gn' : (0 : Int) < (Int.gcd R1.num R2.num : Int) := by exact_mod_cast gn
  have gd' : (0 : Int) < (Int.gcd R1.den R2.den : Int) := by exact_mod_cast gd
  have ea := Int.ediv_mul_cancel (Int.gcd_dvd_left (a := R1.num) (b := R2.num))
  have eb := Int.ediv_mul_cancel (Int.gcd_dvd_right (a := R1.num) (b := R2.num))
  have ec := Int.ediv_mul_cancel (Int.gcd_dvd_left (a := R1.den) (b := R2.den))
  have ee := Int.ediv_mul_cancel (Int.gcd_dvd_right (a := R1.den) (b := R2.den))
  have cab : IsCoprime (R1.num / (Int.gcd R1.num R2.num : Int))
      (R2.num / (Int.gcd R1.num R2.num : Int)) :=
    Int.isCoprime_iff_gcd_eq_one.mpr (Int.gcd_div_gcd_div_gcd gn)
  have cce : IsCoprime (R1.den / (Int.gcd R1.den R2.den : Int))
      (R2.den / (Int.gcd R1.den R2.den : Int)) :=
    Int.isCoprime_iff_gcd_eq_one.mpr (Int.gcd_div_gcd_div_gcd gd)
  have c1 : IsCoprime R1.num R1.den := Int.isCoprime_iff_gcd_eq_one.mpr h1.2.2
  have c2 : IsCoprime R2.num R2.den := Int.isCoprime_iff_gcd_eq_one.mpr h2.2.2
  have da : R1.num / (Int.gcd R1.num R2.num : Int) ∣ R1.num := ⟨_, ea.symm⟩
  have db : R2.num / (Int.gcd R1.num R2.num : Int) ∣ R2.num := ⟨_, eb.symm⟩
  have dc : R1.den / (Int.gcd R1.den R2.den : Int) ∣ R1.den := ⟨_, ec.symm⟩
  have de : R2.den / (Int.gcd R1.den R2.den : Int) ∣ R2.den := ⟨_, ee.symm⟩
  have cac : IsCoprime (R1.num / (Int.gcd R1.num R2.num : Int))
      (R1.den / (Int.gcd R1.den R2.den : Int)) :=
    (c1.of_isCoprime_of_dvd_left da).of_isCoprime_of_dvd_right dc
  have ceb : IsCoprime (R2.den / (Int.gcd R1.den R2.den : Int))
      (R2.num / (Int.gcd R1.num R2.num : Int)) :=
    (c2.symm.of_isCoprime_of_dvd_left de).of_isCoprime_of_dvd_right db
  have pa := Int.ediv_pos_of_pos_of_dvd h1.1 gn'.le Int.gcd_dvd_left
  have pb := Int.ediv_pos_of_pos_of_dvd h2.1 gn'.le Int.gcd_dvd_right
  have pc := Int.ediv_pos_of_pos_of_dvd h1.2.1 gd'.le Int.gcd_dvd_left
  have pe := Int.ediv_pos_of_pos_of_dvd h2.2.1 gd'.le Int.gcd_dvd_right
  have cop : IsCoprime
      ((R1.num / (Int.gcd R1.num R2.num : Int)) * (R2.den / (Int.gcd R1.den R2.den : Int)))
      ((R2.num / (Int.gcd R1.num R2.num : Int)) * (R1.den / (Int.gcd R1.den R2.den : Int))) :=
    IsCoprime.mul_left (IsCoprime.mul_right cab cac) (IsCoprime.mul_right ceb cce.symm)
  have e1 : R1.num * R2.den = ((Int.gcd R1.num R2.num : Int) * (Int.gcd R1.den R2.den : Int)) *
      ((R1.num / (Int.gcd R1.num R2.num : Int)) * (R2.den / (Int.gcd R1.den R2.den : Int))) := by
    conv_lhs => rw [← ea, ← ee]
    ring
  have e2 : R1.den * R2.num = ((Int.gcd R1.num R2.num : Int) * (Int.gcd R1.den R2.den : Int)) *
      ((R2.num / (Int.gcd R1.num R2.num : Int)) * (R1.den / (Int.gcd R1.den R2.den : Int))) := by
    conv_lhs => rw [← ec, ← eb]
    ring
  unfold ratio_divide
  rw [e1, e2, std_ratio_mul_left (mul_pos gn' gd') (mul_pos pa pe) (mul_pos pb pc)]
  exact std_ratio_of_coprime (mul_pos pa pe) (mul_pos pb pc)
    (Int.isCoprime_iff_gcd_eq_one.mp cop)

/-! ### The overflow guard -/

theorem no_overflow_max_eq : __no_overflow.max = 9223372036854775807 := by decide

theorem no_overflow_max_eq_intmax_max : __no_overflow.max = intmax_max := by decide

theorem le_tdiv_iff_mul_le (n M : Int) {d : Int} (hd : 0 < d) (hM : 0 ≤ M) :
    n ≤ M.tdiv d ↔ n * d ≤ M := by
  rw [Int.tdiv_eq_ediv hM hd.le]
  exact Int.le_ediv_iff_mul_le hd

theorem no_overflow_parts {R1 R2 : Ratio} (hn1 : 0 < R1.num) (hd1 : 0 < R1.den)
    (hn2 : 0 < R2.num) (hd2 : 0 < R2.den) :
    __no_overflow.__n1 R1 R2 = R1.num / (Int.gcd R1.num R2.num : Int) ∧
      __no_overflow.__d1 R1 R2 = R1.den / (Int.gcd R1.den R2.den : Int) ∧
      __no_overflow.__n2 R1 R2 = R2.num / (Int.gcd R1.num R2.num : Int) ∧
      __no_overflow.__d2 R1 R2 = R2.den / (Int.gcd R1.den R2.den : Int) := by
  have gn : (0 : Int) ≤ (Int.gcd R1.num R2.num : Int) := Int.ofNat_nonneg _
  have gd : (0 : Int) ≤ (Int.gcd R1.den R2.den : Int) := Int.ofNat_nonneg _
  unfold __no_overflow.__n1 __no_overflow.__d1 __no_overflow.__n2 __no_overflow.__d2
    __no_overflow.__gcd_n1_n2 __no_overflow.__gcd_d1_d2
  rw [gcd_of_pos hn1 hn2.le, gcd_of_pos hd1 hd2.le]
  exact ⟨Int.tdiv_eq_ediv hn1.le gn, Int.tdiv_eq_ediv hd1.le gd,
    Int.tdiv_eq_ediv hn2.le gn, Int.tdiv_eq_ediv hd2.le gd⟩

theorem no_overflow_parts_pos {R1 R2 : Ratio} (hn1 : 0 < R1.num) (hd1 : 0 < R1.den)
    (hn2 : 0 < R2.num) (hd2 : 0 < R2.den) :
    0 < R1.num / (Int.gcd R1.num R2.num : Int) ∧ 0 < R1.den / (Int.gcd R1.den R2.den : Int) ∧
      0 < R2.num / (Int.gcd R1.num R2.num : Int) ∧
      0 < R2.den / (Int.gcd R1.den R2.den : Int) := by
  have gn : (0 : Int) ≤ (Int.gcd R1.num R2.num : Int) := Int.ofNat_nonneg _
  have gd : (0 : Int) ≤ (Int.gcd R1.den R2.den : Int) := Int.ofNat_nonneg _
  exact ⟨Int.ediv_pos_of_pos_of_dvd hn1 gn Int.gcd_dvd_left,
    Int.ediv_pos_of_pos_of_dvd hd1 gd Int.gcd_dvd_left,
    Int.ediv_pos_of_pos_of_dvd hn2 gn Int.gcd_dvd_right,
    Int.ediv_pos_of_pos_of_dvd hd2 gd Int.gcd_dvd_right⟩

theorem no_overflow_value_iff {R1 R2 : Ratio} (hn1 : 0 < R1.num) (hd1 : 0 < R1.den)
    (hn2 : 0 < R2.num) (hd2 : 0 < R2.den) :
    __no_overflow.value R1 R2 = true ↔
      (R1.num / (Int.gcd R1.num R2.num : Int)) * (R2.den / (Int.gcd R1.den R2.den : Int)) ≤
          intmax_max ∧
        (R2.num / (Int.gcd R1.num R2.num : Int)) * (R1.den / (Int.gcd R1.den R2.den : Int)) ≤
          intmax_max := by
  obtain ⟨e1, e2, e3, e4⟩ := no_overflow_parts hn1 hd1 hn2 hd2
  obtain ⟨p1, p2, p3, p4⟩ := no_overflow_parts_pos hn1 hd1 hn2 hd2
  have hM : (0 : Int) ≤ __no_overflow.max := by decide
  unfold __no_overflow.value
  rw [e1, e2, e3, e4, Bool.and_eq_true, decide_eq_true_iff, decide_eq_true_iff,
    le_tdiv_iff_mul_le _ _ p4 hM, le_tdiv_iff_mul_le _ _ p2 hM, no_overflow_max_eq_intmax_max]

theorem convert_enabled_of_value_false {R1 R2 : Ratio} (h : __no_overflow.value R1 R2 = false)
    (S S2 : Storage) : quantity.convert_enabled S R2 S2 R1 = false := by
  unfold quantity.convert_enabled
  rw [h]
  rfl

theorem convert_of_not_enabled {α U : Type} [DecidableEq U] (A : Arith α) (S : Storage)
    (R : Ratio) (u : U) (q : quantity α U)
    (h : quantity.convert_enabled S R q.storage_t q.ratio_t = false) :
    quantity.convert A S R u q = none := by
  unfold quantity.convert
  rw [h]
  simp

/-- Values of the overflow guard between the ratios `1/1000` and `1`. -/
theorem no_overflow_milli_unit :
    __no_overflow.value ⟨1, 1000⟩ ⟨1, 1⟩ = true ∧ __no_overflow.type ⟨1, 1000⟩ ⟨1, 1⟩ = ⟨1, 1000⟩ ∧
      __no_overflow.value ⟨1, 1⟩ ⟨1, 1000⟩ = true ∧
      __no_overflow.type ⟨1, 1⟩ ⟨1, 1000⟩ = ⟨1000, 1⟩ := by
  have g1 : gcd 1 1 = 1 := by rw [gcd_of_pos (by decide) (by decide)]; decide
  have g2 : gcd 1000 1 = 1 := by rw [gcd_of_pos (by decide) (by decide)]; decide
  have g3 : gcd 1 1000 = 1 := by rw [gcd_of_pos (by decide) (by decide)]; decide
  have v1 : __no_overflow.value ⟨1, 1000⟩ ⟨1, 1⟩ = true := by
    simp only [__no_overflow.value, __no_overflow.__n1, __no_overflow.__n2, __no_overflow.__d1,
      __no_overflow.__d2, __no_overflow.__gcd_n1_n2, __no_overflow.__gcd_d1_d2, g1, g2]
    decide
  have v2 : __no_overflow.value ⟨1, 1⟩ ⟨1, 1000⟩ = true := by
    simp only [__no_overflow.value, __no_overflow.__n1, __no_overflow.__n2, __no_overflow.__d1,
      __no_overflow.__d2, __no_overflow.__gcd_n1_n2, __no_overflow.__gcd_d1_d2, g1, g3]
    decide
  refine ⟨v1, ?_, v2, ?_⟩
  · simp only [__no_overflow.type, v1, __no_overflow.__n1, __no_overflow.__n2,
      __no_overflow.__d1, __no_overflow.__d2, __no_overflow.__gcd_n1_n2,
      __no_overflow.__gcd_d1_d2, g1, g2]
    decide
  · simp only [__no_overflow.type, v2, __no_overflow.__n1, __no_overflow.__n2,
      __no_overflow.__d1, __no_overflow.__d2, __no_overflow.__gcd_n1_n2,
      __no_overflow.__gcd_d1_d2, g1, g3]
    decide

/-! ### Conversion to the common type -/

theorem no_overflow_type_eq {R1 R2 : Ratio} (h1 : R1.wf) (h2 : R2.wf)
    (hv : __no_overflow.value R1 R2 = true) :
    __no_overflow.type R1 R2 = ratio_divide R1 R2 := by
  obtain ⟨e1, e2, e3, e4⟩ := no_overflow_parts h1.1 h1.2.1 h2.1 h2.2.1
  obtain ⟨p1, p2, p3, p4⟩ := no_overflow_parts_pos h1.1 h1.2.1 h2.1 h2.2.1
  have hw := ratio_divide_wf h1 h2
  have he := ratio_divide_explicit h1 h2
  rw [he] at hw
  unfold __no_overflow.type __no_overflow.__mul
  rw [hv, e1, e2, e3, e4, he]
  simp only [Bool.not_true, Bool.false_eq_true, if_false]
  exact std_ratio_of_coprime (mul_pos p1 p4) (mul_pos p3 p2) hw.2.2

theorem ratio_divide_finer {R G : Ratio} (hR : R.wf) (hG : G.wf) (hn : G.num ∣ R.num)
    (hd : R.den ∣ G.den) :
    ratio_divide R G = ⟨(R.num / G.num) * (G.den / R.den), 1⟩ := by
  rw [ratio_divide_explicit hR hG, Int.gcd_eq_right hn, Int.gcd_eq_left hd,
    Int.natAbs_of_nonneg hG.1.le, Int.natAbs_of_nonneg hR.2.1.le, Int.ediv_self hG.1.ne',
    Int.ediv_self hR.2.1.ne']
  simp

theorem fits_num_of_no_overflow {R1 R2 : Ratio} (h1 : R1.wf) (h2 : R2.wf)
    (hv : __no_overflow.value R1 R2 = true) : fits (ratio_divide R1 R2).num := by
  have h := (no_overflow_value_iff h1.1 h1.2.1 h2.1 h2.2.1).mp hv
  obtain ⟨p1, p2, p3, p4⟩ := no_overflow_parts_pos h1.1 h1.2.1 h2.1 h2.2.1
  rw [ratio_divide_explicit h1 h2]
  have hp := mul_pos p1 p4
  have hmin : intmax_min ≤ 0 := by decide
  exact ⟨le_trans hmin hp.le, h.1⟩

/-- The expression `_Cq(q)` towards a finer ratio `G`: whichever of the copy
and the converting constructor applies, the stored magnitude is the one
`quantity_cast_impl` computes with the factor `R / G`. -/
theorem init_finer {α U : Type} [DecidableEq U] (A : Arith α) (S S' : Storage) (u : U)
    (R G : Ratio) (c : α) (hR : R.wf) (hG : G.wf) (hn : G.num ∣ R.num) (hd : R.den ∣ G.den)
    (hov : __no_overflow.value R G = true)
    (hS : is_floating_point S' = true ∨ is_floating_point S = false) :
    quantity.init A S' G u ⟨S, R, u, c⟩ =
      some ⟨S', G, u, quantity_cast_impl A (ratio_divide R G) c⟩ := by
  unfold quantity.init
  by_cases hsame : S = S' ∧ R = G ∧ u = u
  · obtain ⟨rfl, rfl, -⟩ := hsame
    simp [ratio_divide_self hR.1 hR.2.1, quantity_cast_impl]
  · rw [if_neg hsame]
    have hden : (__no_overflow.type R G).den = 1 := by
      rw [no_overflow_type_eq hR hG hov, ratio_divide_finer hR hG hn hd]
    have en : quantity.convert_enabled S' G S R = true := by
      unfold quantity.convert_enabled
      rw [hov, hden]
      rcases hS with h | h <;> simp [h]
    simp [quantity.convert, en, quantity_cast, quantity.count]

theorem quantity_cast_impl_intmax_of_den_one {F : Ratio} (c : Int) (hd : F.den = 1)
    (hn : fits F.num) (hm : fits (c * F.num)) :
    quantity_cast_impl intmax_storage F c = c * F.num := by
  by_cases a : F.num = 1
  · simp [quantity_cast_impl, a, hd]
  · simp only [quantity_cast_impl, a, hd, intmax_storage, decide_True, decide_False]
    rw [wrap_of_fits hn, wrap_of_fits hm]

theorem quantity_cast_impl_exact_of_den_one {F : Ratio} (c : ℚ) (hd : F.den = 1) :
    quantity_cast_impl exact_storage F c = c * (F.num : ℚ) := by
  by_cases a : F.num = 1
  · simp [quantity_cast_impl, a, hd]
  · simp [quantity_cast_impl, a, hd, exact_storage]

theorem ratio_gcd_finer {R1 R2 : Ratio} (h1 : R1.wf) (h2 : R2.wf) :
    ((ratio_gcd R1 R2).num ∣ R1.num ∧ R1.den ∣ (ratio_gcd R1 R2).den) ∧
      ((ratio_gcd R1 R2).num ∣ R2.num ∧ R2.den ∣ (ratio_gcd R1 R2).den) := by
  rw [ratio_gcd_of_wf h1 h2]
  exact ⟨⟨Int.gcd_dvd_left, Int.dvd_lcm_left⟩, ⟨Int.gcd_dvd_right, Int.dvd_lcm_right⟩⟩

/-- The factor towards the common ratio is an integer, and multiplying by it
keeps the physical value. -/
theorem factor_to_common {R G : Ratio} (hR : R.wf) (hG : G.wf) (hn : G.num ∣ R.num)
    (hd : R.den ∣ G.den) :
    (ratio_divide R G).den = 1 ∧ 0 < (ratio_divide R G).num ∧
      (((ratio_divide R G).num : Int) : ℚ) * G.val = R.val := by
  have h := val_eq_mul_of_dvd hR hG hn hd
  rw [ratio_divide_finer hR hG hn hd]
  exact ⟨rfl, h.1, h.2.symm⟩

/-! ### The operators through the common type -/

theorem common_type_compat (S1 S2 : Storage) :
    (is_floating_point (common_type S1 S2) = true ∨ is_floating_point S1 = false) ∧
      (is_floating_point (common_type S1 S2) = true ∨ is_floating_point S2 = false) := by
  cases S1 <;> cases S2 <;> simp [common_type, is_floating_point]

theorem scalar_enabled_self (S : Storage) : quantity.scalar_enabled S S = true := by
  cases S <;> rfl

theorem init_common {α U : Type} [DecidableEq U] (A : Arith α) (S1 S2 : Storage) (u : U)
    (R1 R2 : Ratio) (ca cb : α) (h1 : R1.wf) (h2 : R2.wf)
    (ho1 : __no_overflow.value R1 (ratio_gcd R1 R2) = true)
    (ho2 : __no_overflow.value R2 (ratio_gcd R1 R2) = true) :
    quantity.init A (common_type S1 S2) (ratio_gcd R1 R2) u ⟨S1, R1, u, ca⟩ =
        some ⟨common_type S1 S2, ratio_gcd R1 R2, u,
          quantity_cast_impl A (ratio_divide R1 (ratio_gcd R1 R2)) ca⟩ ∧
      quantity.init A (common_type S1 S2) (ratio_gcd R1 R2) u ⟨S2, R2, u, cb⟩ =
        some ⟨common_type S1 S2, ratio_gcd R1 R2, u,
          quantity_cast_impl A (ratio_divide R2 (ratio_gcd R1 R2)) cb⟩ := by
  have hG := ratio_gcd_wf h1 h2
  have hf := ratio_gcd_finer h1 h2
  have hc := common_type_compat S1 S2
  exact ⟨init_finer A S1 _ u R1 _ ca h1 hG hf.1.1 hf.1.2 ho1 hc.1,
    init_finer A S2 _ u R2 _ cb h2 hG hf.2.1 hf.2.2 ho2 hc.2⟩

theorem operator_plus_common {α U : Type} [DecidableEq U] (A : Arith α) (S1 S2 : Storage)
    (u : U) (R1 R2 : Ratio) (ca cb : α) (h1 : R1.wf) (h2 : R2.wf)
    (ho1 : __no_overflow.value R1 (ratio_gcd R1 R2) = true)
    (ho2 : __no_overflow.value R2 (ratio_gcd R1 R2) = true) :
    operator_plus A ⟨S1, R1, u, ca⟩ ⟨S2, R2, u, cb⟩ =
      some ⟨common_type S1 S2, ratio_gcd R1 R2, u,
        A.add (quantity_cast_impl A (ratio_divide R1 (ratio_gcd R1 R2)) ca)
          (quantity_cast_impl A (ratio_divide R2 (ratio_gcd R1 R2)) cb)⟩ := by
  obtain ⟨i1, i2⟩ := init_common A S1 S2 u R1 R2 ca cb h1 h2 ho1 ho2
  simp only [operator_plus, if_true, i1, i2, Option.some_bind, Option.bind_eq_bind,
    quantity.of_scalar, scalar_enabled_self, quantity.count]

theorem operator_minus_common {α U : Type} [DecidableEq U] (A : Arith α) (S1 S2 : Storage)
    (u : U) (R1 R2 : Ratio) (ca cb : α) (h1 : R1.wf) (h2 : R2.wf)
    (ho1 : __no_overflow.value R1 (ratio_gcd R1 R2) = true)
    (ho2 : __no_overflow.value R2 (ratio_gcd R1 R2) = true) :
    operator_minus A ⟨S1, R1, u, ca⟩ ⟨S2, R2, u, cb⟩ =
      some ⟨common_type S1 S2, ratio_gcd R1 R2, u,
        A.sub (quantity_cast_impl A (ratio_divide R1 (ratio_gcd R1 R2)) ca)
          (quantity_cast_impl A (ratio_divide R2 (ratio_gcd R1 R2)) cb)⟩ := by
  obtain ⟨i1, i2⟩ := init_common A S1 S2 u R1 R2 ca cb h1 h2 ho1 ho2
  simp only [operator_minus, if_true, i1, i2, Option.some_bind, Option.bind_eq_bind,
    quantity.of_scalar, scalar_enabled_self, quantity.count]

/-- Values of the overflow guard and of the factors for the operands of the
sum `2.5 at ratio 1` plus `1.0 at ratio 1/2`. -/
theorem half_units_setup :
    ratio_gcd ⟨1, 1⟩ ⟨1, 2⟩ = ⟨1, 2⟩ ∧
      __no_overflow.value ⟨1, 1⟩ (ratio_gcd ⟨1, 1⟩ ⟨1, 2⟩) = true ∧
      __no_overflow.value ⟨1, 2⟩ (ratio_gcd ⟨1, 1⟩ ⟨1, 2⟩) = true := by
  have hG : ratio_gcd ⟨1, 1⟩ ⟨1, 2⟩ = ⟨1, 2⟩ := by
    rw [ratio_gcd_of_wf (by decide) (by decide)]
    decide
  rw [hG]
  exact ⟨rfl,
    (no_overflow_value_iff (by decide) (by decide) (by decide) (by decide)).mpr (by decide),
    (no_overflow_value_iff (by decide) (by decide) (by decide) (by decide)).mpr (by decide)⟩

/-! ### Comparisons -/

theorem ratio_gcd_comm {R1 R2 : Ratio} (h1 : R1.wf) (h2 : R2.wf) :
    ratio_gcd R2 R1 = ratio_gcd R1 R2 := by
  rw [ratio_gcd_of_wf h1 h2, ratio_gcd_of_wf h2 h1, Int.gcd_comm, Int.lcm_comm]

theorem value_eq_scaled {R G : Ratio} (c : Int)
    (hv : (((ratio_divide R G).num : Int) : ℚ) * G.val = R.val) :
    (c : ℚ) * R.val = ((c * (ratio_divide R G).num : Int) : ℚ) * G.val := by
  rw [← hv]
  push_cast
  ring

theorem integral_operands_compare {U : Type} [DecidableEq U] (u : U) (R1 R2 : Ratio)
    (ca cb : Int) (h1 : R1.wf) (h2 : R2.wf)
    (ho1 : __no_overflow.value R1 (ratio_gcd R1 R2) = true)
    (ho2 : __no_overflow.value R2 (ratio_gcd R1 R2) = true)
    (m1 : fits (ca * (ratio_divide R1 (ratio_gcd R1 R2)).num))
    (m2 : fits (cb * (ratio_divide R2 (ratio_gcd R1 R2)).num)) :
    operator_eq intmax_storage (⟨Storage.integral, R1, u, ca⟩ : quantity Int U)
        ⟨Storage.integral, R2, u, cb⟩ =
        some (decide ((ca : ℚ) * R1.val = (cb : ℚ) * R2.val)) ∧
      operator_lt intmax_storage (⟨Storage.integral, R1, u, ca⟩ : quantity Int U)
        ⟨Storage.integral, R2, u, cb⟩ =
        some (decide ((ca : ℚ) * R1.val < (cb : ℚ) * R2.val)) := by
  have hG := ratio_gcd_wf h1 h2
  have hGpos := Ratio.val_pos hG
  have hf := ratio_gcd_finer h1 h2
  obtain ⟨d1, -, v1⟩ := factor_to_common h1 hG hf.1.1 hf.1.2
  obtain ⟨d2, -, v2⟩ := factor_to_common h2 hG hf.2.1 hf.2.2
  have n1 := fits_num_of_no_overflow h1 hG ho1
  have n2 := fits_num_of_no_overflow h2 hG ho2
  obtain ⟨i1, i2⟩ := init_common intmax_storage Storage.integral Storage.integral u R1 R2
    ca cb h1 h2 ho1 ho2
  rw [quantity_cast_impl_intmax_of_den_one ca d1 n1 m1] at i1
  rw [quantity_cast_impl_intmax_of_den_one cb d2 n2 m2] at i2
  have e1 := value_eq_scaled ca v1
  have e2 := value_eq_scaled cb v2
  by_cases hR : R1 = R2
  · subst hR
    have hRpos := Ratio.val_pos h1
    constructor
    · simp only [operator_eq, quantity_eq_impl, quantity.count, intmax_storage, if_true,
        and_self]
      congr 1
      rw [decide_eq_decide]
      constructor
      · intro h; rw [h]
      · intro h
        exact_mod_cast mul_right_cancel₀ hRpos.ne' h
    · simp only [operator_lt, quantity_lt_impl, quantity.count, intmax_storage, if_true,
        and_self]
      congr 1
      rw [decide_eq_decide]
      constructor
      · intro h
        have : (ca : ℚ) < (cb : ℚ) := by exact_mod_cast h
        exact mul_lt_mul_of_pos_right this hRpos
      · intro h
        exact_mod_cast lt_of_mul_lt_mul_right h hRpos.le
  · constructor
    · simp only [operator_eq, quantity_eq_impl, if_true, hR, and_false, false_and, if_false]
      rw [i1, i2]
      simp only [Option.some_bind, Option.bind_eq_bind, quantity.count, intmax_storage]
      congr 1
      rw [decide_eq_decide, e1, e2]
      constructor
      · intro h; rw [h]
      · intro h
        exact_mod_cast mul_right_cancel₀ hGpos.ne' h
    · simp only [operator_lt, quantity_lt_impl, if_true, hR, and_false, false_and, if_false]
      rw [i1, i2]
      simp only [Option.some_bind, Option.bind_eq_bind, quantity.count, intmax_storage]
      congr 1
      rw [decide_eq_decide, e1, e2]
      constructor
      · intro h
        have : ((ca * (ratio_divide R1 (ratio_gcd R1 R2)).num : Int) : ℚ) <
            ((cb * (ratio_divide R2 (ratio_gcd R1 R2)).num : Int) : ℚ) := by exact_mod_cast h
        exact mul_lt_mul_of_pos_right this hGpos
      · intro h
        exact_mod_cast lt_of_mul_lt_mul_right h hGpos.le

/-- Values of the common ratio and of the overflow guard for the ratios `1/1000`
and `1`. -/
theorem milli_unit_setup :
    ratio_gcd ⟨1, 1000⟩ ⟨1, 1⟩ = ⟨1, 1000⟩ ∧
      __no_overflow.value ⟨1, 1000⟩ (ratio_gcd ⟨1, 1000⟩ ⟨1, 1⟩) = true ∧
      __no_overflow.value ⟨1, 1⟩ (ratio_gcd ⟨1, 1000⟩ ⟨1, 1⟩) = true := by
  have hG : ratio_gcd ⟨1, 1000⟩ ⟨1, 1⟩ = ⟨1, 1000⟩ := by
    rw [ratio_gcd_of_wf (by decide) (by decide)]
    decide
  rw [hG]
  exact ⟨rfl,
    (no_overflow_value_iff (by decide) (by decide) (by decide) (by decide)).mpr (by decide),
    (no_overflow_value_iff (by decide) (by decide) (by decide) (by decide)).mpr (by decide)⟩

/-! ### The Euclidean recursion -/

theorem gcd_impl_ne_zero (x y : Int) : gcd_impl x y ≠ 0 := by
  induction x, y using gcd_impl.induct with
  | case1 => rw [gcd_impl]; simp
  | case2 x hx => rw [gcd_impl]; simp [hx]
  | case3 x y hy ih => rw [gcd_impl, if_neg hy]; exact ih

theorem ratio_gcd_self {R : Ratio} (hR : R.wf) : ratio_gcd R R = R := by
  rw [ratio_gcd_of_wf hR hR, Int.gcd_self, Int.lcm_self, Int.natAbs_of_nonneg hR.1.le,
    Int.natAbs_of_nonneg hR.2.1.le]

theorem common_type_self (S : Storage) : common_type S S = S := by
  cases S <;> rfl

theorem no_overflow_self {R : Ratio} (hn : 0 < R.num) (hd : 0 < R.den) :
    __no_overflow.value R R = true := by
  rw [no_overflow_value_iff hn hd hn hd, Int.gcd_self, Int.gcd_self,
    Int.natAbs_of_nonneg hn.le, Int.natAbs_of_nonneg hd.le, Int.ediv_self hn.ne',
    Int.ediv_self hd.ne']
  decide

/-! ### Division of two quantities -/

theorem tdiv_eq_trunc_of_ne_zero (a b : Int) (hb : b ≠ 0) :
    a.tdiv b = if 0 ≤ (a : ℚ) / (b : ℚ) then ⌊(a : ℚ) / (b : ℚ)⌋ else ⌈(a : ℚ) / (b : ℚ)⌉ := by
  rcases lt_or_gt_of_ne hb with h | h
  · have hpos : 0 < -b := by omega
    have e : (a : ℚ) / (b : ℚ) = ((-a : Int) : ℚ) / ((-b : Int) : ℚ) := by
      push_cast
      rw [neg_div_neg_eq]
    have t : a.tdiv b = (-a).tdiv (-b) := by
      rw [Int.tdiv_neg, Int.neg_tdiv, neg_neg]
    rw [t, e]
    exact tdiv_eq_trunc (-a) (-b) hpos
  · exact tdiv_eq_trunc a b h

/-! ### Scalar and cross-dimension operators -/

theorem init_same_ratio {α U : Type} [DecidableEq U] (A : Arith α) (S S2 : Storage) (u : U)
    (R : Ratio) (c : α) (hR : R.wf) :
    quantity.init A (common_type S S2) R u ⟨S, R, u, c⟩ = some ⟨common_type S S2, R, u, c⟩ := by
  have h := init_finer A S (common_type S S2) u R R c hR hR (dvd_refl _) (dvd_refl _)
    (no_overflow_self hR.1 hR.2.1) (common_type_compat S S2).1
  rw [h, ratio_divide_self hR.1 hR.2.1]
  rfl

theorem operator_times_scalar_eq {α U : Type} [DecidableEq U] (A : Arith α) (S S2 : Storage)
    (u : U) (R : Ratio) (c s : α) (hR : R.wf) :
    operator_times_scalar A ⟨S, R, u, c⟩ (Operand.of_scalar S2 s) =
      some ⟨common_type S S2, R, u, A.mul c s⟩ := by
  simp only [operator_times_scalar]
  rw [init_same_ratio A S S2 u R c hR]
  simp only [Option.some_bind, Option.bind_eq_bind, quantity.of_scalar, scalar_enabled_self,
    quantity.count, if_true]

theorem ratio_multiply_val {R1 R2 : Ratio} (h1 : R1.wf) (h2 : R2.wf) :
    (ratio_multiply R1 R2).wf ∧ (ratio_multiply R1 R2).val = R1.val * R2.val := by
  unfold ratio_multiply
  refine ⟨std_ratio_wf (mul_pos h1.1 h2.1) (mul_pos h1.2.1 h2.2.1), ?_⟩
  rw [std_ratio_val (mul_pos h1.1 h2.1) (mul_pos h1.2.1 h2.2.1)]
  unfold Ratio.val
  have a1 : (R1.den : ℚ) ≠ 0 := by exact_mod_cast h1.2.1.ne'
  have a2 : (R2.den : ℚ) ≠ 0 := by exact_mod_cast h2.2.1.ne'
  push_cast
  field_simp

/-! ### The implicit conversion -/

theorem quantity_cast_impl_of_den_one {α : Type} (A : Arith α) {F : Ratio} (c : α)
    (hd : F.den = 1) :
    quantity_cast_impl A F c = if F.num = 1 then c else A.mul c (A.cast F.num) := by
  by_cases a : F.num = 1 <;> simp [quantity_cast_impl, a, hd]

theorem convert_enabled_floating (R : Ratio) (S2 : Storage) (R2 : Ratio) :
    quantity.convert_enabled Storage.floating R S2 R2 = __no_overflow.value R2 R := by
  simp [quantity.convert_enabled, is_floating_point]

theorem operator_div_common {α U : Type} [DecidableEq U] (A : Arith α) (S1 S2 : Storage)
    (u : U) (R1 R2 : Ratio) (ca cb : α) (h1 : R1.wf) (h2 : R2.wf)
    (ho1 : __no_overflow.value R1 (ratio_gcd R1 R2) = true)
    (ho2 : __no_overflow.value R2 (ratio_gcd R1 R2) = true) :
    operator_div A ⟨S1, R1, u, ca⟩ ⟨S2, R2, u, cb⟩ =
      some (A.div (quantity_cast_impl A (ratio_divide R1 (ratio_gcd R1 R2)) ca)
        (quantity_cast_impl A (ratio_divide R2 (ratio_gcd R1 R2)) cb)) := by
  obtain ⟨i1, i2⟩ := init_common A S1 S2 u R1 R2 ca cb h1 h2 ho1 ho2
  simp only [operator_div, if_true]
  rw [i1, i2]
  simp only [Option.some_bind, Option.bind_eq_bind, quantity.count]

/-! ### Round trips and the quotient with remainder -/

theorem ratio_divide_swap {R1 R2 : Ratio} (h1 : R1.wf) (h2 : R2.wf) :
    ratio_divide R2 R1 = ⟨(ratio_divide R1 R2).den, (ratio_divide R1 R2).num⟩ := by
  rw [ratio_divide_explicit h1 h2, ratio_divide_explicit h2 h1, Int.gcd_comm R2.num R1.num,
    Int.gcd_comm R2.den R1.den]

theorem neg_tmod_eq (a b : Int) : (-a).tmod b = -(a.tmod b) := by
  rw [Int.tmod_def, Int.tmod_def, Int.neg_tdiv]
  ring

theorem tmod_bounds (a b : Int) :
    (0 ≤ a → 0 ≤ a.tmod b ∧ a.tmod b ≤ a) ∧ (a ≤ 0 → a ≤ a.tmod b ∧ a.tmod b ≤ 0) := by
  have emod_le : ∀ x d : Int, 0 ≤ x → 0 ≤ d → x % d ≤ x := by
    intro x d hx hd
    have e := Int.emod_add_ediv x d
    have q := mul_nonneg hd (Int.ediv_nonneg hx hd)
    omega
  have key : ∀ x : Int, 0 ≤ x → 0 ≤ x.tmod b ∧ x.tmod b ≤ x := by
    intro x hx
    refine ⟨Int.tmod_nonneg b hx, ?_⟩
    rcases le_or_lt 0 b with hb | hb
    · rw [Int.tmod_eq_emod hx hb]
      exact emod_le x b hx hb
    · have e : x.tmod b = x.tmod (-b) := (Int.tmod_neg x b).symm
      have hb' : 0 < -b := by omega
      rw [e, Int.tmod_eq_emod hx hb'.le]
      exact emod_le x (-b) hx hb'.le
  constructor
  · exact key a
  · intro ha
    have h := key (-a) (by omega)
    rw [neg_tmod_eq] at h
    omega

theorem fits_tmod {a : Int} (b : Int) (ha : fits a) : fits (a.tmod b) := by
  rw [fits_iff] at ha ⊢
  have h := tmod_bounds a b
  rcases le_total 0 a with h0 | h0
  · have := h.1 h0; omega
  · have := h.2 h0; omega

theorem fits_sub_tmod {a : Int} (b : Int) (ha : fits a) : fits (a - a.tmod b) := by
  rw [fits_iff] at ha ⊢
  have h := tmod_bounds a b
  rcases le_total 0 a with h0 | h0
  · have := h.1 h0; omega
  · have := h.2 h0; omega

theorem tdiv_mul_eq_sub_tmod (a b : Int) : a.tdiv b * b = a - a.tmod b := by
  have := Int.tdiv_add_tmod' a b
  omega

theorem ratio_gcd_absorb {R G : Ratio} (hR : R.wf) (hG : G.wf) (hn : G.num ∣ R.num)
    (hd : R.den ∣ G.den) : ratio_gcd R G = G ∧ ratio_gcd G R = G := by
  have e : ratio_gcd R G = G := by
    rw [ratio_gcd_of_wf hR hG, Int.gcd_eq_right hn, Int.natAbs_of_nonneg hG.1.le]
    have hl : ((Int.lcm R.den G.den : Nat) : Int) = G.den :=
      Int.dvd_antisymm (Int.ofNat_nonneg _) hG.2.1.le (Int.lcm_dvd hd (dvd_refl _))
        Int.dvd_lcm_right
    rw [hl]
  exact ⟨e, (ratio_gcd_comm hR hG).trans e⟩

theorem operator_mod_common {α U : Type} [DecidableEq U] (A : Arith α) (u : U)
    (R1 R2 : Ratio) (ca cb : α) (h1 : R1.wf) (h2 : R2.wf)
    (ho1 : __no_overflow.value R1 (ratio_gcd R1 R2) = true)
    (ho2 : __no_overflow.value R2 (ratio_gcd R1 R2) = true) :
    operator_mod A ⟨Storage.integral, R1, u, ca⟩ ⟨Storage.integral, R2, u, cb⟩ =
      some ⟨Storage.integral, ratio_gcd R1 R2, u,
        A.mod (quantity_cast_impl A (ratio_divide R1 (ratio_gcd R1 R2)) ca)
          (quantity_cast_impl A (ratio_divide R2 (ratio_gcd R1 R2)) cb)⟩ := by
  obtain ⟨i1, i2⟩ := init_common A Storage.integral Storage.integral u R1 R2 ca cb h1 h2 ho1 ho2
  simp only [operator_mod, if_true]
  rw [i1, i2]
  simp only [Option.some_bind, Option.bind_eq_bind, quantity.of_scalar, scalar_enabled_self,
    quantity.count, common_type, is_floating_point, if_true, Bool.false_eq_true, if_false]

theorem fits_of_fits_mul {x F : Int} (hF : 1 ≤ F) (h : fits (x * F)) : fits x := by
  rw [fits_iff] at h ⊢
  rcases le_total 0 x with h0 | h0
  · have : x ≤ x * F := by nlinarith
    omega
  · have : x * F ≤ x := by nlinarith
    omega

/-! ## Properties of the conversion engine, the common ratio, the operators and the
construction rules -/

/-- C1. On integral storage and without overflow, `quantity_cast` of a magnitude
`c` from ratio `R1` to ratio `R2` uses the factor `F = R1 / R2` in lowest terms
and returns `c` when `F = 1/1`, `c / F.den` when only `F.num = 1`, `c * F.num`
when only `F.den = 1` and `(c * F.num) / F.den` otherwise, which in each case
is the value of the general formula `(c * F.num) / F.den`, the quotient
truncating; and for every `F` the selected specialisation computes what the
general specialisation computes. -/
theorem quantity_cast_strategy {U : Type} [DecidableEq U] (u : U) (R1 R2 : Ratio) (c : Int)
    (h1 : R1.wf) (h2 : R2.wf)
    (hn : fits (ratio_divide R1 R2).num) (hd : fits (ratio_divide R1 R2).den)
    (hc : fits c) (hm : fits (c * (ratio_divide R1 R2).num)) :
    (∃ v : Int,
      quantity_cast intmax_storage Storage.integral R2 u ⟨Storage.integral, R1, u, c⟩ =
        some ⟨Storage.integral, R2, u, v⟩ ∧
      (ratio_divide R1 R2).val = R1.val / R2.val ∧
      Int.gcd (ratio_divide R1 R2).num (ratio_divide R1 R2).den = 1 ∧
      ((ratio_divide R1 R2).num = 1 → (ratio_divide R1 R2).den = 1 → v = c) ∧
      ((ratio_divide R1 R2).num = 1 → (ratio_divide R1 R2).den ≠ 1 →
        v = c.tdiv (ratio_divide R1 R2).den) ∧
      ((ratio_divide R1 R2).num ≠ 1 → (ratio_divide R1 R2).den = 1 →
        v = c * (ratio_divide R1 R2).num) ∧
      ((ratio_divide R1 R2).num ≠ 1 → (ratio_divide R1 R2).den ≠ 1 →
        v = (c * (ratio_divide R1 R2).num).tdiv (ratio_divide R1 R2).den) ∧
      v = (c * (ratio_divide R1 R2).num).tdiv (ratio_divide R1 R2).den) ∧
    (∀ F : Ratio, quantity_cast_impl intmax_storage F c =
      intmax_storage.div (intmax_storage.mul c (intmax_storage.cast F.num))
        (intmax_storage.cast F.den)) := by
  have hw := ratio_divide_wf h1 h2
  have hv := quantity_cast_impl_exact _ c hn hd hw.2.1 hc hm
  refine ⟨⟨quantity_cast_impl intmax_storage (ratio_divide R1 R2) c, ?_,
    ratio_divide_val h1 h2, hw.2.2, ?_, ?_, ?_, ?_, hv⟩,
    fun F => quantity_cast_impl_general F c hc⟩
  · simp [quantity_cast, quantity.count]
  · intro a b
    simp [quantity_cast_impl, a, b]
  · intro a b
    simp only [quantity_cast_impl, a, b, intmax_storage, decide_True, decide_False]
    rw [wrap_of_fits hd, wrap_of_fits (fits_tdiv hc hw.2.1)]
  · intro a b
    simp only [quantity_cast_impl, a, b, intmax_storage, decide_True, decide_False]
    rw [wrap_of_fits hn, wrap_of_fits hm]
  · intro _ _
    exact hv

/-- Witness of C1 at `c = 100`, `R1 = 2/3`, `R2 = 5/7`: the factor is `14/15`
and the result is `1400 / 15 = 93`. -/
theorem quantity_cast_strategy_witness :
    quantity_cast intmax_storage Storage.integral ⟨5, 7⟩ () ⟨Storage.integral, ⟨2, 3⟩, (), 100⟩ =
      some ⟨Storage.integral, ⟨5, 7⟩, (), 93⟩ := by
  obtain ⟨⟨v, hv, -, -, -, -, -, -, hval⟩, -⟩ :=
    quantity_cast_strategy () ⟨2, 3⟩ ⟨5, 7⟩ 100 (by decide) (by decide) (by decide) (by decide)
      (by decide) (by decide)
  rw [hv, hval]
  decide

/-- C2, with the proviso the code needs. On integral storage, converting a
magnitude `c` of any sign from ratio `R1` to ratio `R2` yields the rational
`c * R1 / R2` truncated toward zero, computed as `(c * F.num) / F.den` with
the product first, whenever that product `c * F.num` and the components of
the factor `F` are representable in `intmax_t`; `1500` at ratio `1/1000`
converts to `1` at ratio `1/1`. -/
theorem quantity_cast_truncates {U : Type} [DecidableEq U] (u : U) (R1 R2 : Ratio) (c : Int)
    (h1 : R1.wf) (h2 : R2.wf)
    (hn : fits (ratio_divide R1 R2).num) (hd : fits (ratio_divide R1 R2).den)
    (hc : fits c) (hm : fits (c * (ratio_divide R1 R2).num)) :
    quantity_cast intmax_storage Storage.integral R2 u ⟨Storage.integral, R1, u, c⟩ =
        some ⟨Storage.integral, R2, u,
          if 0 ≤ (c : ℚ) * R1.val / R2.val then ⌊(c : ℚ) * R1.val / R2.val⌋
          else ⌈(c : ℚ) * R1.val / R2.val⌉⟩ ∧
      (if 0 ≤ (c : ℚ) * R1.val / R2.val then ⌊(c : ℚ) * R1.val / R2.val⌋
        else ⌈(c : ℚ) * R1.val / R2.val⌉) =
        (c * (ratio_divide R1 R2).num).tdiv (ratio_divide R1 R2).den ∧
      quantity_cast intmax_storage Storage.integral ⟨1, 1⟩ u
          ⟨Storage.integral, ⟨1, 1000⟩, u, 1500⟩ = some ⟨Storage.integral, ⟨1, 1⟩, u, 1⟩ := by
  have hw := ratio_divide_wf h1 h2
  have hv := quantity_cast_impl_exact _ c hn hd hw.2.1 hc hm
  have ht := tdiv_eq_trunc (c * (ratio_divide R1 R2).num) (ratio_divide R1 R2).den hw.2.1
  rw [ratio_scale_eq h1 h2] at ht
  refine ⟨?_, ht.symm, ?_⟩
  · simp only [quantity_cast, quantity.count, if_true]
    rw [hv, ht]
  · simp only [quantity_cast, quantity.count, if_true]
    have e : ratio_divide ⟨1, 1000⟩ ⟨1, 1⟩ = ⟨1, 1000⟩ := by decide
    have e2 : quantity_cast_impl intmax_storage ⟨1, 1000⟩ 1500 = 1 := by decide
    rw [e, e2]

/-- Witness of C2 at the negative magnitude `c = -1500`, from ratio `1/1000` to
ratio `1/1`: the result is `-1`, rounded toward zero. -/
theorem quantity_cast_truncates_witness :
    quantity_cast intmax_storage Storage.integral ⟨1, 1⟩ () ⟨Storage.integral, ⟨1, 1000⟩, (), -1500⟩ =
      some ⟨Storage.integral, ⟨1, 1⟩, (), -1⟩ := by
  have h := (quantity_cast_truncates () ⟨1, 1000⟩ ⟨1, 1⟩ (-1500) (by decide) (by decide)
    (by decide) (by decide) (by decide) (by decide)).1
  have h2 := (quantity_cast_truncates () ⟨1, 1000⟩ ⟨1, 1⟩ (-1500) (by decide) (by decide)
    (by decide) (by decide) (by decide) (by decide)).2.1
  rw [h, h2]
  decide

/-- Counterexample to C2 as stated for every magnitude: `2^62` at ratio `4/3`
converted to ratio `1`. The quotient `2^64 / 3` truncates to
`6148914691236517205`, which is representable, but the product `2^62 * 4`
formed first is not, and the conversion yields `0`. -/
theorem quantity_cast_truncates_counterexample :
    fits 4611686018427387904 ∧
      (if 0 ≤ (4611686018427387904 : ℚ) * (⟨4, 3⟩ : Ratio).val / (⟨1, 1⟩ : Ratio).val
        then ⌊(4611686018427387904 : ℚ) * (⟨4, 3⟩ : Ratio).val / (⟨1, 1⟩ : Ratio).val⌋
        else ⌈(4611686018427387904 : ℚ) * (⟨4, 3⟩ : Ratio).val / (⟨1, 1⟩ : Ratio).val⌉) =
        6148914691236517205 ∧
      fits 6148914691236517205 ∧
      quantity_cast intmax_storage Storage.integral ⟨1, 1⟩ ()
          ⟨Storage.integral, ⟨4, 3⟩, (), 4611686018427387904⟩ =
        some ⟨Storage.integral, ⟨1, 1⟩, (), 0⟩ ∧
      quantity_cast intmax_storage Storage.integral ⟨1, 1⟩ ()
          ⟨Storage.integral, ⟨4, 3⟩, (), 4611686018427387904⟩ ≠
        some ⟨Storage.integral, ⟨1, 1⟩, (),
          if 0 ≤ (4611686018427387904 : ℚ) * (⟨4, 3⟩ : Ratio).val / (⟨1, 1⟩ : Ratio).val
          then ⌊(4611686018427387904 : ℚ) * (⟨4, 3⟩ : Ratio).val / (⟨1, 1⟩ : Ratio).val⌋
          else ⌈(4611686018427387904 : ℚ) * (⟨4, 3⟩ : Ratio).val / (⟨1, 1⟩ : Ratio).val⌉⟩ := by
  have hq : (4611686018427387904 : ℚ) * (⟨4, 3⟩ : Ratio).val / (⟨1, 1⟩ : Ratio).val =
      18446744073709551616 / 3 := by
    simp only [Ratio.val]
    norm_num
  have hfl : ⌊(18446744073709551616 / 3 : ℚ)⌋ = 6148914691236517205 := by
    rw [Int.floor_eq_iff]
    norm_num
  have hv : (if 0 ≤ (4611686018427387904 : ℚ) * (⟨4, 3⟩ : Ratio).val / (⟨1, 1⟩ : Ratio).val
        then ⌊(4611686018427387904 : ℚ) * (⟨4, 3⟩ : Ratio).val / (⟨1, 1⟩ : Ratio).val⌋
        else ⌈(4611686018427387904 : ℚ) * (⟨4, 3⟩ : Ratio).val / (⟨1, 1⟩ : Ratio).val⌉) =
        6148914691236517205 := by
    rw [hq, if_pos (by norm_num), hfl]
  have hc : quantity_cast intmax_storage Storage.integral ⟨1, 1⟩ ()
      ⟨Storage.integral, ⟨4, 3⟩, (), 4611686018427387904⟩ =
        some ⟨Storage.integral, ⟨1, 1⟩, (), 0⟩ := by decide
  refine ⟨by decide, hv, by decide, hc, ?_⟩
  rw [hv, hc]
  decide

/-- C3. On integral storage and without overflow, when `R1 / R2` reduces to an
integer `k` (denominator one), converting a magnitude `c` from ratio `R1` to
ratio `R2` yields `c * k`, and the physical value is kept:
`(c * k) * R2 = c * R1`; `5000` at ratio `1` converts to `5000000` at ratio
`1/1000`. -/
theorem quantity_cast_exact_scaling {U : Type} [DecidableEq U] (u : U) (R1 R2 : Ratio) (c : Int)
    (h1 : R1.wf) (h2 : R2.wf) (hk : (ratio_divide R1 R2).den = 1)
    (hn : fits (ratio_divide R1 R2).num) (hm : fits (c * (ratio_divide R1 R2).num)) :
    quantity_cast intmax_storage Storage.integral R2 u ⟨Storage.integral, R1, u, c⟩ =
        some ⟨Storage.integral, R2, u, c * (ratio_divide R1 R2).num⟩ ∧
      (((ratio_divide R1 R2).num : Int) : ℚ) = R1.val / R2.val ∧
      ((c * (ratio_divide R1 R2).num : Int) : ℚ) * R2.val = (c : ℚ) * R1.val ∧
      quantity_cast intmax_storage Storage.integral ⟨1, 1000⟩ u
          ⟨Storage.integral, ⟨1, 1⟩, u, 5000⟩ = some ⟨Storage.integral, ⟨1, 1000⟩, u, 5000000⟩ := by
  have hv := ratio_divide_val h1 h2
  have hnum : (((ratio_divide R1 R2).num : Int) : ℚ) = R1.val / R2.val := by
    rw [← hv]
    unfold Ratio.val
    rw [hk]
    simp
  have h2pos := Ratio.val_pos h2
  refine ⟨?_, hnum, ?_, ?_⟩
  · simp only [quantity_cast, quantity.count, if_true]
    by_cases a : (ratio_divide R1 R2).num = 1
    · simp [quantity_cast_impl, a, hk]
    · simp only [quantity_cast_impl, a, hk, intmax_storage, decide_True, decide_False]
      rw [wrap_of_fits hn, wrap_of_fits hm]
  · push_cast
    rw [hnum]
    field_simp
  · simp only [quantity_cast, quantity.count, if_true]
    have e : ratio_divide ⟨1, 1⟩ ⟨1, 1000⟩ = ⟨1000, 1⟩ := by decide
    have e2 : quantity_cast_impl intmax_storage ⟨1000, 1⟩ 5000 = 5000000 := by decide
    rw [e, e2]

/-- Witness of C3 at `c = -7`, from ratio `3/2` to ratio `1/4`: the factor is
`6` and the result `-42`. -/
theorem quantity_cast_exact_scaling_witness :
    quantity_cast intmax_storage Storage.integral ⟨1, 4⟩ () ⟨Storage.integral, ⟨3, 2⟩, (), -7⟩ =
      some ⟨Storage.integral, ⟨1, 4⟩, (), -42⟩ := by
  rw [(quantity_cast_exact_scaling () ⟨3, 2⟩ ⟨1, 4⟩ (-7) (by decide) (by decide) (by decide)
    (by decide) (by decide)).1]
  decide

/-- C4. For every storage arithmetic, every ratio and every magnitude `c`,
`quantity_cast` of a quantity to its own type (same storage, ratio and units)
returns a quantity with magnitude `c`: the input itself, which on integral
and on exact storage compares equal to it. -/
theorem quantity_cast_identity {α U : Type} [DecidableEq U] (A : Arith α) (S : Storage)
    (R : Ratio) (u : U) (c : α) (hn : 0 < R.num) (hd : 0 < R.den) :
    quantity_cast A S R u ⟨S, R, u, c⟩ = some ⟨S, R, u, c⟩ ∧
      operator_eq A ⟨S, R, u, c⟩ ⟨S, R, u, c⟩ = some (A.eq c c) ∧
      (∀ k : Int, operator_eq intmax_storage (⟨S, R, u, k⟩ : quantity Int U) ⟨S, R, u, k⟩ =
        some true) ∧
      (∀ k : ℚ, operator_eq exact_storage (⟨S, R, u, k⟩ : quantity ℚ U) ⟨S, R, u, k⟩ =
        some true) := by
  refine ⟨?_, ?_, ?_, ?_⟩
  · simp [quantity_cast, quantity.count, ratio_divide_self hn hd, quantity_cast_impl]
  · simp [operator_eq, quantity_eq_impl, quantity.count]
  · intro k
    simp [operator_eq, quantity_eq_impl, quantity.count, intmax_storage]
  · intro k
    simp [operator_eq, quantity_eq_impl, quantity.count, exact_storage]

/-- Witness of C4 on integral storage at ratio `3/7` and magnitude `-12`. -/
theorem quantity_cast_identity_witness :
    quantity_cast intmax_storage Storage.integral ⟨3, 7⟩ ()
        ⟨Storage.integral, ⟨3, 7⟩, (), -12⟩ = some ⟨Storage.integral, ⟨3, 7⟩, (), -12⟩ :=
  (quantity_cast_identity intmax_storage Storage.integral ⟨3, 7⟩ () (-12) (by decide)
    (by decide)).1

/-- C5. For two ratios with positive components in lowest terms,
`ratio_gcd` is `gcd(n1, n2) / lcm(d1, d2)` and is the greatest common divisor
of the two among the positive rationals: it is positive and at most each of
them, each of them is a positive integer multiple of it, and every positive
rational that divides both into integers divides it into an integer. -/
theorem ratio_gcd_greatest (R1 R2 : Ratio) (h1 : R1.wf) (h2 : R2.wf) :
    (ratio_gcd R1 R2).num = (Int.gcd R1.num R2.num : Int) ∧
      (ratio_gcd R1 R2).den = (Int.lcm R1.den R2.den : Int) ∧
      0 < (ratio_gcd R1 R2).val ∧
      (ratio_gcd R1 R2).val ≤ R1.val ∧ (ratio_gcd R1 R2).val ≤ R2.val ∧
      (∃ k : Int, 0 < k ∧ R1.val / (ratio_gcd R1 R2).val = (k : ℚ)) ∧
      (∃ k : Int, 0 < k ∧ R2.val / (ratio_gcd R1 R2).val = (k : ℚ)) ∧
      ∀ Q : ℚ, 0 < Q → (∃ a : Int, R1.val / Q = (a : ℚ)) → (∃ b : Int, R2.val / Q = (b : ℚ)) →
        ∃ m : Int, (ratio_gcd R1 R2).val / Q = (m : ℚ) := by
  have hG := ratio_gcd_wf h1 h2
  have hGe := ratio_gcd_of_wf h1 h2
  have hnum : (ratio_gcd R1 R2).num = (Int.gcd R1.num R2.num : Int) := by rw [hGe]
  have hden : (ratio_gcd R1 R2).den = (Int.lcm R1.den R2.den : Int) := by rw [hGe]
  have hGpos := Ratio.val_pos hG
  have k1 := val_eq_mul_of_dvd h1 hG (by rw [hnum]; exact Int.gcd_dvd_left)
    (by rw [hden]; exact Int.dvd_lcm_left)
  have k2 := val_eq_mul_of_dvd h2 hG (by rw [hnum]; exact Int.gcd_dvd_right)
    (by rw [hden]; exact Int.dvd_lcm_right)
  have le_of : ∀ (k : Int) (x : ℚ), 0 < k → x = (k : ℚ) * (ratio_gcd R1 R2).val →
      (ratio_gcd R1 R2).val ≤ x := by
    intro k x hk hx
    have : (1 : ℚ) ≤ (k : ℚ) := by exact_mod_cast hk
    rw [hx]
    nlinarith
  refine ⟨hnum, hden, hGpos, le_of _ _ k1.1 k1.2, le_of _ _ k2.1 k2.2,
    ⟨_, k1.1, ?_⟩, ⟨_, k2.1, ?_⟩, ?_⟩
  · rw [k1.2]; field_simp
  · rw [k2.2]; field_simp
  · intro Q hQ ⟨a, ha⟩ ⟨b, hb⟩
    have d1 := dvd_of_val_div_int h1 hQ ha
    have d2 := dvd_of_val_div_int h2 hQ hb
    have dn : Q.num ∣ (ratio_gcd R1 R2).num := by
      rw [hnum]; exact Int.dvd_gcd d1.1 d2.1
    have dd : (ratio_gcd R1 R2).den ∣ (Q.den : Int) := by
      rw [hden]; exact Int.lcm_dvd d1.2 d2.2
    obtain ⟨s, hs⟩ := dn
    obtain ⟨t, ht⟩ := dd
    refine ⟨s * t, ?_⟩
    have hq : (Q.den : ℚ) ≠ 0 := by exact_mod_cast Q.den_pos.ne'
    have hp : (Q.num : ℚ) ≠ 0 := by
      have : 0 < Q.num := Rat.num_pos.mpr hQ
      exact_mod_cast this.ne'
    have hl : ((ratio_gcd R1 R2).den : ℚ) ≠ 0 := by exact_mod_cast hG.2.1.ne'
    have hs' : ((ratio_gcd R1 R2).num : ℚ) = Q.num * s := by exact_mod_cast hs
    have ht' : (Q.den : ℚ) = (ratio_gcd R1 R2).den * t := by exact_mod_cast ht
    have ht0 : (t : ℚ) ≠ 0 := by
      intro h0
      rw [h0, mul_zero] at ht'
      exact hq ht'
    have gen : ∀ p q g l s t : ℚ, q ≠ 0 → l ≠ 0 → t ≠ 0 → p ≠ 0 → g = p * s → q = l * t →
        g / l / (p / q) = s * t := by
      intro p q g l s t _ _ _ _ e1 e2
      subst e1 e2
      field_simp
      ring
    have := gen _ _ _ _ _ _ hq hl ht0 hp hs' ht'
    rw [Rat.num_div_den] at this
    unfold Ratio.val
    rw [this]
    push_cast
    rfl

/-- Witness of C5 at the ratios `4/9` and `6/5`, whose common ratio is `2/45`. -/
theorem ratio_gcd_greatest_witness :
    (ratio_gcd ⟨4, 9⟩ ⟨6, 5⟩).num = 2 ∧ (ratio_gcd ⟨4, 9⟩ ⟨6, 5⟩).den = 45 := by
  have h := ratio_gcd_greatest ⟨4, 9⟩ ⟨6, 5⟩ (by decide) (by decide)
  exact ⟨h.1.trans (by decide), h.2.1.trans (by decide)⟩

/-- C6. For two quantities of the same units at ratios `R1`, `R2` in lowest
terms whose conversions pass the overflow guard, the factors `R1 / G` and
`R2 / G` towards `G = ratio_gcd R1 R2` are integers; with exact magnitudes,
and with integral magnitudes when nothing overflows, `a + b` is the quantity
at ratio `G` with magnitude `ca * (R1/G) + cb * (R2/G)`, whose physical value
is the sum of the physical values, and likewise `a - b` with the difference;
`2.5` at ratio `1` plus `1.0` at ratio `1/2` is `6` at ratio `1/2`. -/
theorem operator_plus_minus_value {U : Type} [DecidableEq U] (u : U) (R1 R2 : Ratio)
    (h1 : R1.wf) (h2 : R2.wf)
    (ho1 : __no_overflow.value R1 (ratio_gcd R1 R2) = true)
    (ho2 : __no_overflow.value R2 (ratio_gcd R1 R2) = true) :
    ((ratio_divide R1 (ratio_gcd R1 R2)).den = 1 ∧
      (((ratio_divide R1 (ratio_gcd R1 R2)).num : Int) : ℚ) = R1.val / (ratio_gcd R1 R2).val) ∧
    ((ratio_divide R2 (ratio_gcd R1 R2)).den = 1 ∧
      (((ratio_divide R2 (ratio_gcd R1 R2)).num : Int) : ℚ) = R2.val / (ratio_gcd R1 R2).val) ∧
    (∀ ca cb : ℚ,
      operator_plus exact_storage ⟨Storage.floating, R1, u, ca⟩ ⟨Storage.floating, R2, u, cb⟩ =
          some ⟨Storage.floating, ratio_gcd R1 R2, u,
            ca * ((ratio_divide R1 (ratio_gcd R1 R2)).num : ℚ) +
              cb * ((ratio_divide R2 (ratio_gcd R1 R2)).num : ℚ)⟩ ∧
        (ca * ((ratio_divide R1 (ratio_gcd R1 R2)).num : ℚ) +
            cb * ((ratio_divide R2 (ratio_gcd R1 R2)).num : ℚ)) * (ratio_gcd R1 R2).val =
          ca * R1.val + cb * R2.val ∧
        operator_minus exact_storage ⟨Storage.floating, R1, u, ca⟩
            ⟨Storage.floating, R2, u, cb⟩ =
          some ⟨Storage.floating, ratio_gcd R1 R2, u,
            ca * ((ratio_divide R1 (ratio_gcd R1 R2)).num : ℚ) -
              cb * ((ratio_divide R2 (ratio_gcd R1 R2)).num : ℚ)⟩ ∧
        (ca * ((ratio_divide R1 (ratio_gcd R1 R2)).num : ℚ) -
            cb * ((ratio_divide R2 (ratio_gcd R1 R2)).num : ℚ)) * (ratio_gcd R1 R2).val =
          ca * R1.val - cb * R2.val) ∧
    (∀ ca cb : Int,
      fits (ca * (ratio_divide R1 (ratio_gcd R1 R2)).num) →
      fits (cb * (ratio_divide R2 (ratio_gcd R1 R2)).num) →
      (fits (ca * (ratio_divide R1 (ratio_gcd R1 R2)).num +
            cb * (ratio_divide R2 (ratio_gcd R1 R2)).num) →
        ∃ r : quantity Int U,
          operator_plus intmax_storage ⟨Storage.integral, R1, u, ca⟩
              ⟨Storage.integral, R2, u, cb⟩ = some r ∧
            r = ⟨Storage.integral, ratio_gcd R1 R2, u,
              ca * (ratio_divide R1 (ratio_gcd R1 R2)).num +
                cb * (ratio_divide R2 (ratio_gcd R1 R2)).num⟩ ∧
            r.value = (ca : ℚ) * R1.val + (cb : ℚ) * R2.val) ∧
      (fits (ca * (ratio_divide R1 (ratio_gcd R1 R2)).num -
            cb * (ratio_divide R2 (ratio_gcd R1 R2)).num) →
        ∃ r : quantity Int U,
          operator_minus intmax_storage ⟨Storage.integral, R1, u, ca⟩
              ⟨Storage.integral, R2, u, cb⟩ = some r ∧
            r = ⟨Storage.integral, ratio_gcd R1 R2, u,
              ca * (ratio_divide R1 (ratio_gcd R1 R2)).num -
                cb * (ratio_divide R2 (ratio_gcd R1 R2)).num⟩ ∧
            r.value = (ca : ℚ) * R1.val - (cb : ℚ) * R2.val)) ∧
    operator_plus exact_storage ⟨Storage.floating, ⟨1, 1⟩, u, 5 / 2⟩
        ⟨Storage.floating, ⟨1, 2⟩, u, 1⟩ = some ⟨Storage.floating, ⟨1, 2⟩, u, 6⟩ := by
  have hG := ratio_gcd_wf h1 h2
  have hGpos := Ratio.val_pos hG
  have hf := ratio_gcd_finer h1 h2
  obtain ⟨d1, -, v1⟩ := factor_to_common h1 hG hf.1.1 hf.1.2
  obtain ⟨d2, -, v2⟩ := factor_to_common h2 hG hf.2.1 hf.2.2
  have n1 := fits_num_of_no_overflow h1 hG ho1
  have n2 := fits_num_of_no_overflow h2 hG ho2
  refine ⟨⟨d1, ?_⟩, ⟨d2, ?_⟩, ?_, ?_, ?_⟩
  · rw [← v1]; field_simp
  · rw [← v2]; field_simp
  · intro ca cb
    have hp := operator_plus_common exact_storage Storage.floating Storage.floating u R1 R2
      ca cb h1 h2 ho1 ho2
    have hm := operator_minus_common exact_storage Storage.floating Storage.floating u R1 R2
      ca cb h1 h2 ho1 ho2
    rw [quantity_cast_impl_exact_of_den_one ca d1,
      quantity_cast_impl_exact_of_den_one cb d2] at hp hm
    refine ⟨hp, ?_, hm, ?_⟩
    · rw [← v1, ← v2]; ring
    · rw [← v1, ← v2]; ring
  · intro ca cb m1 m2
    have hp := operator_plus_common intmax_storage Storage.integral Storage.integral u R1 R2
      ca cb h1 h2 ho1 ho2
    have hm := operator_minus_common intmax_storage Storage.integral Storage.integral u R1 R2
      ca cb h1 h2 ho1 ho2
    rw [quantity_cast_impl_intmax_of_den_one ca d1 n1 m1,
      quantity_cast_impl_intmax_of_den_one cb d2 n2 m2] at hp hm
    constructor
    · intro hs
      refine ⟨_, hp, ?_, ?_⟩
      · simp only [intmax_storage, wrap_of_fits hs, common_type]
      · simp only [intmax_storage, wrap_of_fits hs, quantity.value, quantity.count]
        push_cast
        rw [← v1, ← v2]; ring
    · intro hs
      refine ⟨_, hm, ?_, ?_⟩
      · simp only [intmax_storage, wrap_of_fits hs, common_type]
      · simp only [intmax_storage, wrap_of_fits hs, quantity.value, quantity.count]
        push_cast
        rw [← v1, ← v2]; ring
  · obtain ⟨hG', o1, o2⟩ := half_units_setup
    have hp := operator_plus_common exact_storage Storage.floating Storage.floating u
      ⟨1, 1⟩ ⟨1, 2⟩ (5 / 2) 1 (by decide) (by decide) o1 o2
    rw [hp, hG']
    have e1 : ratio_divide ⟨1, 1⟩ ⟨1, 2⟩ = ⟨2, 1⟩ := by decide
    have e2 : ratio_divide ⟨1, 2⟩ ⟨1, 2⟩ = ⟨1, 1⟩ := by decide
    rw [e1, e2]
    simp only [quantity_cast_impl, exact_storage, common_type]
    norm_num

/-- Witness of C6: `5` at ratio `2/3` plus `7` at ratio `4/5` is `67` at ratio
`2/15`. -/
theorem operator_plus_minus_value_witness :
    operator_plus intmax_storage (⟨Storage.integral, ⟨2, 3⟩, (), 5⟩ : quantity Int Unit)
        ⟨Storage.integral, ⟨4, 5⟩, (), 7⟩ = some ⟨Storage.integral, ⟨2, 15⟩, (), 67⟩ := by
  have hG : ratio_gcd ⟨2, 3⟩ ⟨4, 5⟩ = ⟨2, 15⟩ := by
    rw [ratio_gcd_of_wf (by decide) (by decide)]
    decide
  have o1 : __no_overflow.value ⟨2, 3⟩ (ratio_gcd ⟨2, 3⟩ ⟨4, 5⟩) = true := by
    rw [hG]
    exact (no_overflow_value_iff (by decide) (by decide) (by decide) (by decide)).mpr
      (by decide)
  have o2 : __no_overflow.value ⟨4, 5⟩ (ratio_gcd ⟨2, 3⟩ ⟨4, 5⟩) = true := by
    rw [hG]
    exact (no_overflow_value_iff (by decide) (by decide) (by decide) (by decide)).mpr
      (by decide)
  obtain ⟨r, hr, hv, -⟩ := ((operator_plus_minus_value () ⟨2, 3⟩ ⟨4, 5⟩ (by decide) (by decide)
    o1 o2).2.2.2.1 5 7 (by rw [hG]; decide) (by rw [hG]; decide)).1 (by rw [hG]; decide)
  rw [hr, hv, hG]
  decide

/-- C7. For two integral quantities of the same units at ratios in lowest terms
whose conversions to the common type pass the overflow guard and do not
overflow, the comparisons follow the physical values `magnitude * ratio`:
`==` is their equality and `<` their strict order, and `!=`, `>`, `<=`, `>=`
are the negation of `==`, the swapped `<`, the negation of `b < a` and the
negation of `a < b`. -/
theorem comparison_operators_value {U : Type} [DecidableEq U] (u : U) (R1 R2 : Ratio)
    (ca cb : Int) (h1 : R1.wf) (h2 : R2.wf)
    (ho1 : __no_overflow.value R1 (ratio_gcd R1 R2) = true)
    (ho2 : __no_overflow.value R2 (ratio_gcd R1 R2) = true)
    (m1 : fits (ca * (ratio_divide R1 (ratio_gcd R1 R2)).num))
    (m2 : fits (cb * (ratio_divide R2 (ratio_gcd R1 R2)).num)) :
    (operator_eq intmax_storage (⟨Storage.integral, R1, u, ca⟩ : quantity Int U)
        ⟨Storage.integral, R2, u, cb⟩ =
        some (decide ((ca : ℚ) * R1.val = (cb : ℚ) * R2.val)) ∧
      operator_lt intmax_storage (⟨Storage.integral, R1, u, ca⟩ : quantity Int U)
        ⟨Storage.integral, R2, u, cb⟩ =
        some (decide ((ca : ℚ) * R1.val < (cb : ℚ) * R2.val)) ∧
      operator_ne intmax_storage (⟨Storage.integral, R1, u, ca⟩ : quantity Int U)
        ⟨Storage.integral, R2, u, cb⟩ =
        some (!decide ((ca : ℚ) * R1.val = (cb : ℚ) * R2.val)) ∧
      operator_gt intmax_storage (⟨Storage.integral, R1, u, ca⟩ : quantity Int U)
        ⟨Storage.integral, R2, u, cb⟩ =
        some (decide ((cb : ℚ) * R2.val < (ca : ℚ) * R1.val)) ∧
      operator_le intmax_storage (⟨Storage.integral, R1, u, ca⟩ : quantity Int U)
        ⟨Storage.integral, R2, u, cb⟩ =
        some (!decide ((cb : ℚ) * R2.val < (ca : ℚ) * R1.val)) ∧
      operator_ge intmax_storage (⟨Storage.integral, R1, u, ca⟩ : quantity Int U)
        ⟨Storage.integral, R2, u, cb⟩ =
        some (!decide ((ca : ℚ) * R1.val < (cb : ℚ) * R2.val))) ∧
    (operator_ne intmax_storage (⟨Storage.integral, R1, u, ca⟩ : quantity Int U)
        ⟨Storage.integral, R2, u, cb⟩ =
        (operator_eq intmax_storage (⟨Storage.integral, R1, u, ca⟩ : quantity Int U)
          ⟨Storage.integral, R2, u, cb⟩).map (fun x => !x) ∧
      operator_gt intmax_storage (⟨Storage.integral, R1, u, ca⟩ : quantity Int U)
        ⟨Storage.integral, R2, u, cb⟩ =
        operator_lt intmax_storage (⟨Storage.integral, R2, u, cb⟩ : quantity Int U)
          ⟨Storage.integral, R1, u, ca⟩ ∧
      operator_le intmax_storage (⟨Storage.integral, R1, u, ca⟩ : quantity Int U)
        ⟨Storage.integral, R2, u, cb⟩ =
        (operator_lt intmax_storage (⟨Storage.integral, R2, u, cb⟩ : quantity Int U)
          ⟨Storage.integral, R1, u, ca⟩).map (fun x => !x) ∧
      operator_ge intmax_storage (⟨Storage.integral, R1, u, ca⟩ : quantity Int U)
        ⟨Storage.integral, R2, u, cb⟩ =
        (operator_lt intmax_storage (⟨Storage.integral, R1, u, ca⟩ : quantity Int U)
          ⟨Storage.integral, R2, u, cb⟩).map (fun x => !x)) := by
  have hc := ratio_gcd_comm h1 h2
  obtain ⟨heq, hlt⟩ := integral_operands_compare u R1 R2 ca cb h1 h2 ho1 ho2 m1 m2
  obtain ⟨-, hgt⟩ := integral_operands_compare u R2 R1 cb ca h2 h1 (by rw [hc]; exact ho2)
    (by rw [hc]; exact ho1) (by rw [hc]; exact m2) (by rw [hc]; exact m1)
  refine ⟨⟨heq, hlt, ?_, ?_, ?_, ?_⟩, rfl, rfl, rfl, rfl⟩
  · simp only [operator_ne, heq, Option.map_some']
  · simp only [operator_gt, hgt]
  · simp only [operator_le, hgt, Option.map_some']
  · simp only [operator_ge, hlt, Option.map_some']

/-- Witness of C7: `4999` at ratio `1/1000` against `5` at ratio `1`; the
operands are not equal and the first is the smaller. -/
theorem comparison_operators_value_witness :
    operator_eq intmax_storage (⟨Storage.integral, ⟨1, 1000⟩, (), 4999⟩ : quantity Int Unit)
        ⟨Storage.integral, ⟨1, 1⟩, (), 5⟩ = some false ∧
      operator_lt intmax_storage (⟨Storage.integral, ⟨1, 1000⟩, (), 4999⟩ : quantity Int Unit)
        ⟨Storage.integral, ⟨1, 1⟩, (), 5⟩ = some true := by
  obtain ⟨hG, o1, o2⟩ := milli_unit_setup
  have h := (comparison_operators_value () ⟨1, 1000⟩ ⟨1, 1⟩ 4999 5 (by decide) (by decide) o1 o2
    (by rw [hG]; decide) (by rw [hG]; decide)).1
  rw [h.1, h.2.1]
  simp only [Ratio.val]
  norm_num

/-- C8, as the code has it. The converting constructor of a quantity of ratio
`1` from a quantity of ratio `1/1000` is not available when the destination
storage is integral, whatever the source storage: the guard passes, but the
reduced ratio `(1/1000) / 1` has denominator `1000`; no value is constructed,
and the conversion is left to the explicit `quantity_cast`. -/
theorem implicit_coarsening_unavailable {α U : Type} [DecidableEq U] (A : Arith α)
    (S2 : Storage) (u : U) (c : α) :
    quantity.convert_enabled Storage.integral ⟨1, 1⟩ S2 ⟨1, 1000⟩ = false ∧
      (__no_overflow.type ⟨1, 1000⟩ ⟨1, 1⟩).den = 1000 ∧
      quantity.convert A Storage.integral ⟨1, 1⟩ u ⟨S2, ⟨1, 1000⟩, u, c⟩ = none ∧
      quantity_cast A Storage.integral ⟨1, 1⟩ u ⟨S2, ⟨1, 1000⟩, u, c⟩ =
        some ⟨Storage.integral, ⟨1, 1⟩, u, A.div c (A.cast 1000)⟩ := by
  obtain ⟨v1, t1, -, -⟩ := no_overflow_milli_unit
  have en : quantity.convert_enabled Storage.integral ⟨1, 1⟩ S2 ⟨1, 1000⟩ = false := by
    simp [quantity.convert_enabled, v1, t1, is_floating_point]
  refine ⟨en, by rw [t1], convert_of_not_enabled A _ _ u _ en, ?_⟩
  have e : ratio_divide ⟨1, 1000⟩ ⟨1, 1⟩ = ⟨1, 1000⟩ := by decide
  simp only [quantity_cast, quantity.count, if_true]
  rw [e]
  rfl

/-- Counterexample to C8: with integral source and destination storage the
enabling condition of the converting constructor from ratio `1/1000` to ratio
`1` is not true. -/
theorem implicit_coarsening_counterexample :
    ¬ (quantity.convert_enabled Storage.integral ⟨1, 1⟩ Storage.integral ⟨1, 1000⟩ = true) := by
  obtain ⟨v1, t1, -, -⟩ := no_overflow_milli_unit
  simp [quantity.convert_enabled, v1, t1, is_floating_point]

/-- C9, as the code has it. The converting constructor of a quantity of ratio
`1/1000` from a quantity of ratio `1` is available with integral source and
destination storage: the guard passes and the reduced ratio `1 / (1/1000)` is
`1000/1`; it stores the magnitude times `1000`, so no explicit `quantity_cast`
is needed. -/
theorem implicit_refining_available {U : Type} [DecidableEq U] (u : U) (c : Int) :
    quantity.convert_enabled Storage.integral ⟨1, 1000⟩ Storage.integral ⟨1, 1⟩ = true ∧
      (__no_overflow.type ⟨1, 1⟩ ⟨1, 1000⟩).den = 1 ∧
      quantity.convert intmax_storage Storage.integral ⟨1, 1000⟩ u
          ⟨Storage.integral, ⟨1, 1⟩, u, c⟩ =
        some ⟨Storage.integral, ⟨1, 1000⟩, u, wrap (c * 1000)⟩ := by
  obtain ⟨-, -, v2, t2⟩ := no_overflow_milli_unit
  have en : quantity.convert_enabled Storage.integral ⟨1, 1000⟩ Storage.integral ⟨1, 1⟩ = true := by
    simp [quantity.convert_enabled, v2, t2, is_floating_point]
  refine ⟨en, by rw [t2], ?_⟩
  have e : ratio_divide ⟨1, 1⟩ ⟨1, 1000⟩ = ⟨1000, 1⟩ := by decide
  have w : wrap 1000 = 1000 := by decide
  simp only [quantity.convert, en, quantity_cast, quantity.count, if_true, and_self,
    Option.map_some']
  rw [e]
  simp only [quantity_cast_impl, intmax_storage, w]
  rfl

/-- Counterexample to C9: with integral source and destination storage the
enabling condition of the converting constructor from ratio `1` to ratio
`1/1000` is not false. -/
theorem implicit_refining_counterexample :
    ¬ (quantity.convert_enabled Storage.integral ⟨1, 1000⟩ Storage.integral ⟨1, 1⟩ = false) := by
  obtain ⟨-, -, v2, t2⟩ := no_overflow_milli_unit
  simp [quantity.convert_enabled, v2, t2, is_floating_point]

/-- C10. For a source ratio `R1` and a destination ratio `R2` with positive
components, the source values `__n1`, `__d1`, `__n2`, `__d2` are the
components divided by the gcd of the numerators and of the denominators,
`__no_overflow<R1, R2>::value` is true exactly when the two cross products
`n1' * d2'` and `n2' * d1'` are at most `2^63 - 1`, and when it is false the
converting constructor is disabled for every pair of storage types and
constructs nothing. -/
theorem no_overflow_guard {α U : Type} [DecidableEq U] (R1 R2 : Ratio)
    (hn1 : 0 < R1.num) (hd1 : 0 < R1.den) (hn2 : 0 < R2.num) (hd2 : 0 < R2.den) :
    (__no_overflow.__n1 R1 R2 = R1.num / (Int.gcd R1.num R2.num : Int) ∧
      __no_overflow.__d1 R1 R2 = R1.den / (Int.gcd R1.den R2.den : Int) ∧
      __no_overflow.__n2 R1 R2 = R2.num / (Int.gcd R1.num R2.num : Int) ∧
      __no_overflow.__d2 R1 R2 = R2.den / (Int.gcd R1.den R2.den : Int)) ∧
    (__no_overflow.value R1 R2 = true ↔
      __no_overflow.__n1 R1 R2 * __no_overflow.__d2 R1 R2 ≤ 2 ^ 63 - 1 ∧
        __no_overflow.__n2 R1 R2 * __no_overflow.__d1 R1 R2 ≤ 2 ^ 63 - 1) ∧
    (__no_overflow.value R1 R2 = false →
      ∀ S S2 : Storage, quantity.convert_enabled S R2 S2 R1 = false) ∧
    (__no_overflow.value R1 R2 = false →
      ∀ (A : Arith α) (S S2 : Storage) (u : U) (c : α),
        quantity.convert A S R2 u ⟨S2, R1, u, c⟩ = none) := by
  have hp := no_overflow_parts hn1 hd1 hn2 hd2
  refine ⟨hp, ?_, fun h S S2 => convert_enabled_of_value_false h S S2, fun h A S S2 u c =>
    convert_of_not_enabled A S R2 u _ (convert_enabled_of_value_false h S S2)⟩
  rw [hp.1, hp.2.1, hp.2.2.1, hp.2.2.2, no_overflow_value_iff hn1 hd1 hn2 hd2]
  have : intmax_max = 2 ^ 63 - 1 := by decide
  rw [this]

/-- Witness of C10 at the source ratio `2^62 / 1` and the destination ratio
`1/4`: the cross product `2^62 * 4` exceeds `2^63 - 1`, the guard is false
and the constructor is disabled even between floating-point storages. -/
theorem no_overflow_guard_witness :
    __no_overflow.value ⟨4611686018427387904, 1⟩ ⟨1, 4⟩ = false ∧
      quantity.convert_enabled Storage.floating ⟨1, 4⟩ Storage.floating
        ⟨4611686018427387904, 1⟩ = false := by
  have h := no_overflow_guard (α := Int) (U := Unit) ⟨4611686018427387904, 1⟩ ⟨1, 4⟩
    (by decide) (by decide) (by decide) (by decide)
  have hv : __no_overflow.value ⟨4611686018427387904, 1⟩ ⟨1, 4⟩ = false := by
    cases hv : __no_overflow.value ⟨4611686018427387904, 1⟩ ⟨1, 4⟩ with
    | false => rfl
    | true =>
      have h2 := h.2.1.mp hv
      rw [h.1.1, h.1.2.2.2] at h2
      exact absurd h2.1 (by decide)
  exact ⟨hv, h.2.2.1 hv _ _⟩

/-! ## Properties of the construction rules, the dimension checks, the scalar and
cross-dimension operators and the ratio algebra -/

/-- C11. When the converting constructor is enabled and the destination storage
is integral, the source storage is not floating-point and the reduced ratio
`source / destination` has denominator one: the conversion multiplies and
never divides, and for every source magnitude `c` whose product with the
factor is representable the stored magnitude `r` satisfies
`r * destination = c * source`. When the destination storage is
floating-point the constructor is enabled exactly when the overflow guard
passes, whatever the source storage. -/
theorem implicit_conversion_lossless {U : Type} [DecidableEq U] (S2 : Storage) (R R2 : Ratio)
    (u : U) (hR : R.wf) (hR2 : R2.wf)
    (hen : quantity.convert_enabled Storage.integral R S2 R2 = true) :
    is_floating_point S2 = false ∧
      (__no_overflow.type R2 R).den = 1 ∧ (ratio_divide R2 R).den = 1 ∧
      (((ratio_divide R2 R).num : Int) : ℚ) = R2.val / R.val ∧
      (∀ (α : Type) (A : Arith α) (c : α),
        quantity_cast_impl A (ratio_divide R2 R) c =
          if (ratio_divide R2 R).num = 1 then c else A.mul c (A.cast (ratio_divide R2 R).num)) ∧
      (∀ c : Int, fits (c * (ratio_divide R2 R).num) →
        quantity.convert intmax_storage Storage.integral R u ⟨S2, R2, u, c⟩ =
            some ⟨Storage.integral, R, u, c * (ratio_divide R2 R).num⟩ ∧
          ((c * (ratio_divide R2 R).num : Int) : ℚ) * R.val = (c : ℚ) * R2.val) ∧
      (∀ (S' : Storage) (R' R2' : Ratio),
        quantity.convert_enabled Storage.floating R' S' R2' = __no_overflow.value R2' R') := by
  have hv : __no_overflow.value R2 R = true := by
    cases h : __no_overflow.value R2 R with
    | true => rfl
    | false =>
      rw [convert_enabled_of_value_false h] at hen
      exact absurd hen (by decide)
  have hrest : decide ((__no_overflow.type R2 R).den = 1) = true ∧
      is_floating_point S2 = false := by
    unfold quantity.convert_enabled at hen
    rw [hv] at hen
    simpa [is_floating_point] using hen
  have hden : (__no_overflow.type R2 R).den = 1 := of_decide_eq_true hrest.1
  have hden' : (ratio_divide R2 R).den = 1 := by
    rw [← no_overflow_type_eq hR2 hR hv]
    exact hden
  have hval := ratio_divide_val hR2 hR
  have hnum : (((ratio_divide R2 R).num : Int) : ℚ) = R2.val / R.val := by
    rw [← hval]
    unfold Ratio.val
    rw [hden']
    simp
  have hn := fits_num_of_no_overflow hR2 hR hv
  have hpos := Ratio.val_pos hR
  refine ⟨hrest.2, hden, hden', hnum,
    fun α A c => quantity_cast_impl_of_den_one A c hden', ?_,
    fun S' R' R2' => convert_enabled_floating R' S' R2'⟩
  intro c hm
  constructor
  · simp only [quantity.convert, hen, quantity_cast, quantity.count, if_true, and_self,
      Option.map_some']
    rw [quantity_cast_impl_intmax_of_den_one c hden' hn hm]
  · push_cast
    rw [hnum]
    field_simp

/-- Witness of C11: the constructor from ratio `1` to ratio `1/1000` on
integral storage is enabled, and stores `-7000` for the magnitude `-7`. -/
theorem implicit_conversion_lossless_witness :
    quantity.convert intmax_storage Storage.integral ⟨1, 1000⟩ ()
        ⟨Storage.integral, ⟨1, 1⟩, (), -7⟩ = some ⟨Storage.integral, ⟨1, 1000⟩, (), -7000⟩ := by
  have hen : quantity.convert_enabled Storage.integral ⟨1, 1000⟩ Storage.integral ⟨1, 1⟩ =
      true := by
    obtain ⟨-, -, v2, t2⟩ := no_overflow_milli_unit
    simp [quantity.convert_enabled, v2, t2, is_floating_point]
  have h := (implicit_conversion_lossless Storage.integral ⟨1, 1000⟩ ⟨1, 1⟩ () (by decide)
    (by decide) hen).2.2.2.2.2.1 (-7) (by decide)
  rw [h.1]
  decide

/-- C12. For two quantities whose units differ, every additive and comparative
operator and `quantity_cast` from one to the type of the other are rejected:
`+`, `-`, both overloads of `%`, `==`, `!=`, `<`, `<=`, `>`, `>=` and the cast
produce no value, whatever the magnitudes, storages and ratios. -/
theorem units_mismatch_rejected {α U : Type} [DecidableEq U] (A : Arith α)
    (a b : quantity α U) (h : a.units_t ≠ b.units_t) :
    operator_plus A a b = none ∧ operator_minus A a b = none ∧
      operator_mod A a b = none ∧ operator_mod_scalar A a (Operand.of_quantity b) = none ∧
      operator_eq A a b = none ∧ operator_ne A a b = none ∧
      operator_lt A a b = none ∧ operator_le A a b = none ∧
      operator_gt A a b = none ∧ operator_ge A a b = none ∧
      quantity_cast A b.storage_t b.ratio_t b.units_t a = none ∧
      quantity_cast A a.storage_t a.ratio_t a.units_t b = none ∧
      (∀ (S : Storage) (R : Ratio), quantity_cast A S R b.units_t a = none) := by
  have h' : ¬ (b.units_t = a.units_t) := fun e => h e.symm
  refine ⟨?_, ?_, ?_, ?_, ?_, ?_, ?_, ?_, ?_, ?_, ?_, ?_, ?_⟩
  · simp [operator_plus, h]
  · simp [operator_minus, h]
  · simp [operator_mod, h]
  · simp [operator_mod_scalar]
  · simp [operator_eq, h]
  · simp [operator_ne, operator_eq, h]
  · simp [operator_lt, h]
  · simp [operator_le, operator_lt, h']
  · simp [operator_gt, operator_lt, h']
  · simp [operator_ge, operator_lt, h]
  · simp [quantity_cast, h']
  · simp [quantity_cast, h]
  · intro S R
    simp [quantity_cast, h']

/-- Witness of C12 on integral storage: `3` of units `0` and `4` of units `1`,
both at ratio `1`, cannot be added or compared. -/
theorem units_mismatch_rejected_witness :
    operator_plus intmax_storage (⟨Storage.integral, ⟨1, 1⟩, (0 : Nat), 3⟩ : quantity Int Nat)
        ⟨Storage.integral, ⟨1, 1⟩, 1, 4⟩ = none ∧
      operator_eq intmax_storage (⟨Storage.integral, ⟨1, 1⟩, (0 : Nat), 3⟩ : quantity Int Nat)
        ⟨Storage.integral, ⟨1, 1⟩, 1, 4⟩ = none := by
  have h := units_mismatch_rejected intmax_storage
    (⟨Storage.integral, ⟨1, 1⟩, (0 : Nat), 3⟩ : quantity Int Nat)
    ⟨Storage.integral, ⟨1, 1⟩, 1, 4⟩ (by decide)
  exact ⟨h.1, h.2.2.2.2.1⟩

/-- C13, as the code has it. The expression `q1 * q2` on two quantities is
rejected, whatever their units: the two compiled overloads of `operator*`
take a scalar operand and exclude a quantity, and the template for two
quantities is compiled out. A product of two quantities is obtained through
`multiply`, where the caller names the units of the result; naming
`multiply_units D1 D2` gives the quantity of those units, of ratio `R1 * R2`
and of magnitude `c1 * c2`. -/
theorem quantity_product_needs_named_units {α U : Type} [DecidableEq U] (A : Arith α)
    (multiply_units : U → U → U) (q1 q2 : quantity α U) :
    is_quantity (Operand.of_quantity q2) = true ∧
      operator_times_scalar A q1 (Operand.of_quantity q2) = none ∧
      operator_scalar_times A (Operand.of_quantity q1) q2 = none ∧
      operator_times_quantities A q1 q2 = none ∧
      (∀ T : U, multiply A T q1 q2 =
        some ⟨common_type q1.storage_t q2.storage_t, ratio_multiply q1.ratio_t q2.ratio_t, T,
          A.mul q1.count q2.count⟩) ∧
      multiply A (multiply_units q1.units_t q2.units_t) q1 q2 =
        some ⟨common_type q1.storage_t q2.storage_t, ratio_multiply q1.ratio_t q2.ratio_t,
          multiply_units q1.units_t q2.units_t, A.mul q1.count q2.count⟩ := by
  have hm : ∀ T : U, multiply A T q1 q2 =
      some ⟨common_type q1.storage_t q2.storage_t, ratio_multiply q1.ratio_t q2.ratio_t, T,
        A.mul q1.count q2.count⟩ := by
    intro T
    simp only [multiply, quantity.of_scalar, scalar_enabled_self, if_true]
  exact ⟨rfl, rfl, rfl, rfl, hm, hm _⟩

/-- Counterexample to C13: on integral storage, `2` of units `0` times `3` of
units `1`, both at ratio `1`, yields no quantity. -/
theorem quantity_product_counterexample :
    operator_times_quantities intmax_storage
        (⟨Storage.integral, ⟨1, 1⟩, (0 : Nat), 2⟩ : quantity Int Nat)
        ⟨Storage.integral, ⟨1, 1⟩, 1, 3⟩ = none ∧
      ¬ ∃ r : quantity Int Nat, operator_times_quantities intmax_storage
        (⟨Storage.integral, ⟨1, 1⟩, (0 : Nat), 2⟩ : quantity Int Nat)
        ⟨Storage.integral, ⟨1, 1⟩, 1, 3⟩ = some r := by
  refine ⟨rfl, ?_⟩
  rintro ⟨r, hr⟩
  exact Option.noConfusion hr

/-- C14. For two quantities whose units differ, `q1 / q2` is the quantity of
the common storage, of units `divide_units D1 D2`, of ratio
`std::ratio_divide<R1, R2>` and of magnitude `c1 / c2` by the native division
of the promoted storage, on the magnitudes as they stand; the other two
overloads of `/` do not apply. No overflow guard enters. The ratio is
`R1 / R2` in lowest terms, and on integral storage the magnitude is the
quotient truncated toward zero when that is representable. -/
theorem quantity_division_different_units {α U : Type} [DecidableEq U] (A : Arith α)
    (divide_units : U → U → U) (q1 q2 : quantity α U) (h : q1.units_t ≠ q2.units_t) :
    operator_div_units A divide_units q1 q2 =
        some ⟨common_type q1.storage_t q2.storage_t, ratio_divide q1.ratio_t q2.ratio_t,
          divide_units q1.units_t q2.units_t, A.div q1.count q2.count⟩ ∧
      operator_div A q1 q2 = none ∧
      operator_div_scalar A q1 (Operand.of_quantity q2) = none ∧
      (q1.ratio_t.wf → q2.ratio_t.wf →
        (ratio_divide q1.ratio_t q2.ratio_t).wf ∧
          (ratio_divide q1.ratio_t q2.ratio_t).val = q1.ratio_t.val / q2.ratio_t.val) ∧
      (∀ c1 c2 : Int, c2 ≠ 0 → fits (c1.tdiv c2) →
        intmax_storage.div c1 c2 = c1.tdiv c2 ∧
          intmax_storage.div c1 c2 =
            if 0 ≤ (c1 : ℚ) / (c2 : ℚ) then ⌊(c1 : ℚ) / (c2 : ℚ)⌋
            else ⌈(c1 : ℚ) / (c2 : ℚ)⌉) := by
  refine ⟨?_, ?_, rfl, fun w1 w2 => ⟨ratio_divide_wf w1 w2, ratio_divide_val w1 w2⟩, ?_⟩
  · simp only [operator_div_units, h, ne_eq, not_false_eq_true, if_true, quantity.of_scalar,
      scalar_enabled_self]
  · simp [operator_div, h]
  · intro c1 c2 hc hf
    have e : intmax_storage.div c1 c2 = c1.tdiv c2 := by
      simp only [intmax_storage, wrap_of_fits hf]
    exact ⟨e, e.trans (tdiv_eq_trunc_of_ne_zero c1 c2 hc)⟩

/-- Witness of C14 on integral storage: `-7` at ratio `2/3` of units `5`
divided by `2` at ratio `3/4` of units `2`, with the difference of the units
as `divide_units`, is `-3` at ratio `8/9` of units `3`. -/
theorem quantity_division_different_units_witness :
    operator_div_units intmax_storage (fun a b : Int => a - b)
        ⟨Storage.integral, ⟨2, 3⟩, 5, -7⟩ ⟨Storage.integral, ⟨3, 4⟩, 2, 2⟩ =
      some ⟨Storage.integral, ⟨8, 9⟩, 3, -3⟩ := by
  rw [(quantity_division_different_units intmax_storage (fun a b : Int => a - b)
    ⟨Storage.integral, ⟨2, 3⟩, 5, -7⟩ ⟨Storage.integral, ⟨3, 4⟩, 2, 2⟩ (by decide)).1]
  decide

/-- C15. For two integral quantities of the same units at ratios in lowest
terms, with conversions to the common type that pass the overflow guard and
do not overflow and a non-zero divisor, `a / b` is a scalar: the quotient of
the two magnitudes rescaled to `ratio_gcd R1 R2`, which is the quotient of
the physical values `(ca * R1) / (cb * R2)` truncated toward zero. -/
theorem quantity_division_same_units {U : Type} [DecidableEq U] (u : U) (R1 R2 : Ratio)
    (ca cb : Int) (h1 : R1.wf) (h2 : R2.wf)
    (ho1 : __no_overflow.value R1 (ratio_gcd R1 R2) = true)
    (ho2 : __no_overflow.value R2 (ratio_gcd R1 R2) = true)
    (m1 : fits (ca * (ratio_divide R1 (ratio_gcd R1 R2)).num))
    (m2 : fits (cb * (ratio_divide R2 (ratio_gcd R1 R2)).num))
    (hcb : cb ≠ 0)
    (hq : fits ((ca * (ratio_divide R1 (ratio_gcd R1 R2)).num).tdiv
      (cb * (ratio_divide R2 (ratio_gcd R1 R2)).num))) :
    operator_div intmax_storage (⟨Storage.integral, R1, u, ca⟩ : quantity Int U)
        ⟨Storage.integral, R2, u, cb⟩ =
        some ((ca * (ratio_divide R1 (ratio_gcd R1 R2)).num).tdiv
          (cb * (ratio_divide R2 (ratio_gcd R1 R2)).num)) ∧
      (ca * (ratio_divide R1 (ratio_gcd R1 R2)).num).tdiv
          (cb * (ratio_divide R2 (ratio_gcd R1 R2)).num) =
        (if 0 ≤ ((ca : ℚ) * R1.val) / ((cb : ℚ) * R2.val)
          then ⌊((ca : ℚ) * R1.val) / ((cb : ℚ) * R2.val)⌋
          else ⌈((ca : ℚ) * R1.val) / ((cb : ℚ) * R2.val)⌉) ∧
      operator_div_units intmax_storage (fun x _ => x)
        (⟨Storage.integral, R1, u, ca⟩ : quantity Int U) ⟨Storage.integral, R2, u, cb⟩ = none ∧
      operator_div_scalar intmax_storage (⟨Storage.integral, R1, u, ca⟩ : quantity Int U)
        (Operand.of_quantity ⟨Storage.integral, R2, u, cb⟩) = none := by
  have hG := ratio_gcd_wf h1 h2
  have hGpos := Ratio.val_pos hG
  have hf := ratio_gcd_finer h1 h2
  obtain ⟨d1, -, v1⟩ := factor_to_common h1 hG hf.1.1 hf.1.2
  obtain ⟨d2, p2, v2⟩ := factor_to_common h2 hG hf.2.1 hf.2.2
  have n1 := fits_num_of_no_overflow h1 hG ho1
  have n2 := fits_num_of_no_overflow h2 hG ho2
  have hd := operator_div_common intmax_storage Storage.integral Storage.integral u R1 R2
    ca cb h1 h2 ho1 ho2
  rw [quantity_cast_impl_intmax_of_den_one ca d1 n1 m1,
    quantity_cast_impl_intmax_of_den_one cb d2 n2 m2] at hd
  have hne : cb * (ratio_divide R2 (ratio_gcd R1 R2)).num ≠ 0 := mul_ne_zero hcb p2.ne'
  refine ⟨?_, ?_, ?_, rfl⟩
  · rw [hd]
    simp only [intmax_storage, wrap_of_fits hq]
  · rw [tdiv_eq_trunc_of_ne_zero _ _ hne, value_eq_scaled ca v1, value_eq_scaled cb v2,
      mul_div_mul_right _ _ hGpos.ne']
  · simp [operator_div_units]

/-- Witness of C15: `-7500` at ratio `1/1000` divided by `2` at ratio `1` is
the scalar `-3`, the quotient `-3.75` truncated toward zero. -/
theorem quantity_division_same_units_witness :
    operator_div intmax_storage (⟨Storage.integral, ⟨1, 1000⟩, (), -7500⟩ : quantity Int Unit)
        ⟨Storage.integral, ⟨1, 1⟩, (), 2⟩ = some (-3) := by
  obtain ⟨hG, o1, o2⟩ := milli_unit_setup
  have h := (quantity_division_same_units () ⟨1, 1000⟩ ⟨1, 1⟩ (-7500) 2 (by decide) (by decide)
    o1 o2 (by rw [hG]; decide) (by rw [hG]; decide) (by decide) (by rw [hG]; decide)).1
  rw [h, hG]
  decide

/-- C16. For every quantity `q = (c, R, D)` and every scalar `s`, `q * s` and
`s * q` are the same quantity: the common storage, the ratio `R`, the units
`D` and the magnitude `c * s` computed by the promoted storage; `q * s == s * q`
compares that magnitude with itself, which is true on integral and on exact
storage. -/
theorem scalar_multiplication_commutes {α U : Type} [DecidableEq U] (A : Arith α)
    (S S2 : Storage) (u : U) (R : Ratio) (c s : α) (hR : R.wf) :
    operator_times_scalar A ⟨S, R, u, c⟩ (Operand.of_scalar S2 s) =
        some ⟨common_type S S2, R, u, A.mul c s⟩ ∧
      operator_scalar_times A (Operand.of_scalar S2 s) ⟨S, R, u, c⟩ =
        some ⟨common_type S S2, R, u, A.mul c s⟩ ∧
      operator_eq A (⟨common_type S S2, R, u, A.mul c s⟩ : quantity α U)
        ⟨common_type S S2, R, u, A.mul c s⟩ = some (A.eq (A.mul c s) (A.mul c s)) ∧
      (∀ x y : Int, operator_eq intmax_storage
        (⟨common_type S S2, R, u, intmax_storage.mul x y⟩ : quantity Int U)
        ⟨common_type S S2, R, u, intmax_storage.mul x y⟩ = some true) ∧
      (∀ x y : ℚ, operator_eq exact_storage
        (⟨common_type S S2, R, u, exact_storage.mul x y⟩ : quantity ℚ U)
        ⟨common_type S S2, R, u, exact_storage.mul x y⟩ = some true) := by
  have h := operator_times_scalar_eq A S S2 u R c s hR
  refine ⟨h, ?_, ?_, ?_, ?_⟩
  · simp only [operator_scalar_times]
    exact h
  · simp [operator_eq, quantity_eq_impl, quantity.count]
  · intro x y
    simp [operator_eq, quantity_eq_impl, quantity.count, intmax_storage]
  · intro x y
    simp [operator_eq, quantity_eq_impl, quantity.count, exact_storage]

/-- Witness of C16 on integral storage: `-7` at ratio `2/3` times the scalar
`3` is `-21` at ratio `2/3`, from either side. -/
theorem scalar_multiplication_commutes_witness :
    operator_times_scalar intmax_storage (⟨Storage.integral, ⟨2, 3⟩, (), -7⟩ : quantity Int Unit)
        (Operand.of_scalar Storage.integral 3) = some ⟨Storage.integral, ⟨2, 3⟩, (), -21⟩ ∧
      operator_scalar_times intmax_storage (Operand.of_scalar Storage.integral 3)
        (⟨Storage.integral, ⟨2, 3⟩, (), -7⟩ : quantity Int Unit) =
        some ⟨Storage.integral, ⟨2, 3⟩, (), -21⟩ := by
  have h := scalar_multiplication_commutes intmax_storage Storage.integral Storage.integral ()
    ⟨2, 3⟩ (-7) 3 (by decide)
  rw [h.1, h.2.1]
  decide

/-- C17. The source `gcd` follows the Euclidean recursion
`gcd(x, y) = gcd(y, x mod y)` for `y ≠ 0`, `gcd(x, 0) = x` for `x ≠ 0` and
`gcd(0, 0) = 1`; on non-negative arguments the remainder is the mathematical
one and, unless both are zero, the value is the greatest common divisor: it
divides both and every common divisor divides it. It is never zero, so the
divisor of `lcm` and the divisors of the overflow guard are non-zero. -/
theorem gcd_euclid (a b : Int) (ha : 0 ≤ a) (hb : 0 ≤ b) :
    gcd 0 0 = 1 ∧
      (∀ x : Int, x ≠ 0 → gcd x 0 = x) ∧
      (∀ x y : Int, y ≠ 0 → gcd x y = gcd y (x.tmod y)) ∧
      a.tmod b = a % b ∧
      ((a ≠ 0 ∨ b ≠ 0) →
        gcd a b = (Int.gcd a b : Int) ∧ 0 < gcd a b ∧ gcd a b ∣ a ∧ gcd a b ∣ b ∧
          ∀ d : Int, d ∣ a → d ∣ b → d ∣ gcd a b) ∧
      gcd a b ≠ 0 ∧
      (∀ x y : Int, gcd x y ≠ 0) ∧
      (∀ R1 R2 : Ratio, __no_overflow.__gcd_n1_n2 R1 R2 ≠ 0 ∧
        __no_overflow.__gcd_d1_d2 R1 R2 ≠ 0) := by
  refine ⟨?_, ?_, ?_, Int.tmod_eq_emod ha hb, ?_, gcd_impl_ne_zero a b,
    fun x y => gcd_impl_ne_zero x y,
    fun R1 R2 => ⟨gcd_impl_ne_zero _ _, gcd_impl_ne_zero _ _⟩⟩
  · unfold gcd; rw [gcd_impl]; simp
  · intro x hx
    unfold gcd; rw [gcd_impl]; simp [hx]
  · intro x y hy
    unfold gcd
    conv_lhs => rw [gcd_impl, if_neg hy]
  · intro hne
    have hg : gcd a b = (Int.gcd a b : Int) := by
      rw [gcd_of_nonneg ha hb, if_neg]
      omega
    have hpos : 0 < Int.gcd a b := by
      rcases hne with h | h
      · exact Int.gcd_pos_of_ne_zero_left b h
      · exact Int.gcd_pos_of_ne_zero_right a h
    rw [hg]
    exact ⟨rfl, by exact_mod_cast hpos, Int.gcd_dvd_left, Int.gcd_dvd_right,
      fun d h1 h2 => Int.dvd_gcd h1 h2⟩

/-- Witness of C17 at `a = 12`, `b = 18`: the source `gcd` yields `6`. -/
theorem gcd_euclid_witness : gcd 12 18 = 6 := by
  have h := (gcd_euclid 12 18 (by decide) (by decide)).2.2.2.2.1 (Or.inl (by decide))
  rw [h.1]
  decide

/-- C18. For two ratios with positive components in lowest terms, the pair
`(gcd(n1, n2), lcm(d1, d2))` that `ratio_gcd` hands to `std::ratio` has a
positive numerator and a positive denominator and is in lowest terms, so
`ratio_gcd` is that pair, keeps the Ratio invariant and passes the
positive-numerator requirement of the quantity built on it. -/
theorem ratio_gcd_invariant (R1 R2 : Ratio) (h1 : R1.wf) (h2 : R2.wf) :
    0 < gcd R1.num R2.num ∧ 0 < lcm R1.den R2.den ∧
      Int.gcd (gcd R1.num R2.num) (lcm R1.den R2.den) = 1 ∧
      ratio_gcd R1 R2 = ⟨gcd R1.num R2.num, lcm R1.den R2.den⟩ ∧
      (ratio_gcd R1 R2).wf ∧
      quantity.positive_numerator (ratio_gcd R1 R2) = true := by
  have hw := ratio_gcd_wf h1 h2
  have he := ratio_gcd_of_wf h1 h2
  have hg := gcd_of_pos h1.1 h2.1.le
  have hl := lcm_of_pos h1.2.1 h2.2.1
  rw [he] at hw
  refine ⟨?_, ?_, ?_, ?_, ?_, ?_⟩
  · rw [hg]; exact hw.1
  · rw [hl]; exact hw.2.1
  · rw [hg, hl]; exact hw.2.2
  · rw [hg, hl]; exact he
  · rw [he]; exact hw
  · rw [he]
    simp only [quantity.positive_numerator, decide_eq_true_eq]
    exact hw.1

/-- Witness of C18 at the ratios `4/9` and `6/5`: the common ratio `2/45`
keeps the invariant. -/
theorem ratio_gcd_invariant_witness :
    ratio_gcd ⟨4, 9⟩ ⟨6, 5⟩ = ⟨2, 45⟩ ∧ (ratio_gcd ⟨4, 9⟩ ⟨6, 5⟩).wf := by
  have h := ratio_gcd_invariant ⟨4, 9⟩ ⟨6, 5⟩ (by decide) (by decide)
  refine ⟨?_, h.2.2.2.2.1⟩
  rw [ratio_gcd_of_wf (by decide) (by decide)]
  decide

/-- C19. For two quantities of one type (same storage, ratio and units), the
fast path of `==` and of `<`, which compares the magnitudes directly, returns
what the general path returns, which converts both to the common type first:
`ratio_gcd R R` is `R`, the common storage is the storage, and the conversion
of a quantity to its own type keeps the magnitude. `quantity_eq_impl` and
`quantity_lt_impl` select the fast path on such operands. -/
theorem fast_path_agrees {α U : Type} [DecidableEq U] (A : Arith α) (S : Storage) (R : Ratio)
    (u : U) (ca cb : α) (hR : R.wf) :
    ratio_gcd R R = R ∧ common_type S S = S ∧
      quantity.init A (common_type S S) (ratio_gcd R R) u ⟨S, R, u, ca⟩ = some ⟨S, R, u, ca⟩ ∧
      quantity_cast A S R u ⟨S, R, u, ca⟩ = some ⟨S, R, u, ca⟩ ∧
      quantity_eq_impl_general A ⟨S, R, u, ca⟩ ⟨S, R, u, cb⟩ =
        quantity_eq_impl_same A (⟨S, R, u, ca⟩ : quantity α U) ⟨S, R, u, cb⟩ ∧
      quantity_lt_impl_general A ⟨S, R, u, ca⟩ ⟨S, R, u, cb⟩ =
        quantity_lt_impl_same A (⟨S, R, u, ca⟩ : quantity α U) ⟨S, R, u, cb⟩ ∧
      quantity_eq_impl A ⟨S, R, u, ca⟩ ⟨S, R, u, cb⟩ =
        quantity_eq_impl_same A (⟨S, R, u, ca⟩ : quantity α U) ⟨S, R, u, cb⟩ ∧
      quantity_lt_impl A ⟨S, R, u, ca⟩ ⟨S, R, u, cb⟩ =
        quantity_lt_impl_same A (⟨S, R, u, ca⟩ : quantity α U) ⟨S, R, u, cb⟩ ∧
      (∀ lhs rhs : quantity α U, quantity_eq_impl A lhs rhs =
        if lhs.storage_t = rhs.storage_t ∧ lhs.ratio_t = rhs.ratio_t ∧
            lhs.units_t = rhs.units_t
        then quantity_eq_impl_same A lhs rhs else quantity_eq_impl_general A lhs rhs) ∧
      (∀ lhs rhs : quantity α U, quantity_lt_impl A lhs rhs =
        if lhs.storage_t = rhs.storage_t ∧ lhs.ratio_t = rhs.ratio_t ∧
            lhs.units_t = rhs.units_t
        then quantity_lt_impl_same A lhs rhs else quantity_lt_impl_general A lhs rhs) := by
  have hg := ratio_gcd_self hR
  have hc := common_type_self S
  have hi : ∀ c : α, quantity.init A (common_type S S) (ratio_gcd R R) u ⟨S, R, u, c⟩ =
      some ⟨S, R, u, c⟩ := by
    intro c
    rw [hg, hc]
    simp [quantity.init]
  refine ⟨hg, hc, hi ca, ?_, ?_, ?_, ?_, ?_, fun _ _ => rfl, fun _ _ => rfl⟩
  · simp only [quantity_cast, quantity.count, if_true]
    rw [ratio_divide_self hR.1 hR.2.1]
    rfl
  · simp only [quantity_eq_impl_general, quantity_eq_impl_same]
    rw [hi ca, hi cb]
    rfl
  · simp only [quantity_lt_impl_general, quantity_lt_impl_same]
    rw [hi ca, hi cb]
    rfl
  · simp [quantity_eq_impl, quantity_eq_impl_same]
  · simp [quantity_lt_impl, quantity_lt_impl_same]

/-- Witness of C19 on integral storage at ratio `3/7`: both paths of `<` find
`-12` below `5`. -/
theorem fast_path_agrees_witness :
    quantity_lt_impl_general intmax_storage
        (⟨Storage.integral, ⟨3, 7⟩, (), -12⟩ : quantity Int Unit)
        ⟨Storage.integral, ⟨3, 7⟩, (), 5⟩ = some true := by
  rw [(fast_path_agrees intmax_storage Storage.integral ⟨3, 7⟩ () (-12) 5 (by decide)).2.2.2.2.2.1]
  decide

/-- C20. For every target units `T` and two quantities of any units,
`multiply(T, q1, q2)` is the quantity of units `T`, of the common storage, of
ratio `R1 * R2` and of magnitude `c1 * c2` computed by the promoted storage,
and `divide(T, q1, q2)` the one of ratio `R1 / R2` and of magnitude `c1 / c2`
by the native division; the ratios are the product and the quotient in lowest
terms, and with exact magnitudes the physical value of the product is the
product of the physical values. -/
theorem multiply_divide_value {α U : Type} (A : Arith α) (T : U) (S1 S2 : Storage)
    (R1 R2 : Ratio) (D1 D2 : U) (c1 c2 : α) (h1 : R1.wf) (h2 : R2.wf) :
    multiply A T ⟨S1, R1, D1, c1⟩ ⟨S2, R2, D2, c2⟩ =
        some ⟨common_type S1 S2, ratio_multiply R1 R2, T, A.mul c1 c2⟩ ∧
      divide A T ⟨S1, R1, D1, c1⟩ ⟨S2, R2, D2, c2⟩ =
        some ⟨common_type S1 S2, ratio_divide R1 R2, T, A.div c1 c2⟩ ∧
      ((ratio_multiply R1 R2).wf ∧ (ratio_multiply R1 R2).val = R1.val * R2.val) ∧
      ((ratio_divide R1 R2).wf ∧ (ratio_divide R1 R2).val = R1.val / R2.val) ∧
      (∀ x y : ℚ, exact_storage.mul x y * (ratio_multiply R1 R2).val =
        (x * R1.val) * (y * R2.val)) ∧
      (∀ x y : ℚ, exact_storage.div x y * (ratio_divide R1 R2).val =
        (x * R1.val) / (y * R2.val)) ∧
      (∀ x y : Int, fits (x * y) →
        ((intmax_storage.mul x y : Int) : ℚ) * (ratio_multiply R1 R2).val =
          ((x : ℚ) * R1.val) * ((y : ℚ) * R2.val)) ∧
      (∀ x y : Int, intmax_storage.div x y = wrap (x.tdiv y)) := by
  have hm := ratio_multiply_val h1 h2
  have hd := ratio_divide_val h1 h2
  refine ⟨?_, ?_, hm, ⟨ratio_divide_wf h1 h2, hd⟩, ?_, ?_, ?_, fun _ _ => rfl⟩
  · simp only [multiply, quantity.of_scalar, scalar_enabled_self, quantity.count, if_true]
  · simp only [divide, quantity.of_scalar, scalar_enabled_self, quantity.count, if_true]
  · intro x y
    rw [hm.2]
    simp only [exact_storage]
    ring
  · intro x y
    rw [hd]
    simp only [exact_storage]
    have := Ratio.val_pos h2
    by_cases hy : y = 0
    · simp [hy]
    · field_simp
  · intro x y hf
    rw [hm.2]
    simp only [intmax_storage, wrap_of_fits hf]
    push_cast
    ring

/-- Witness of C20 on integral storage: `5` at ratio `2/3` times `-7` at ratio
`3/4`, with target units `7`, is `-35` at ratio `1/2`. -/
theorem multiply_divide_value_witness :
    multiply intmax_storage (7 : Nat) ⟨Storage.integral, ⟨2, 3⟩, 1, 5⟩
        ⟨Storage.integral, ⟨3, 4⟩, 2, -7⟩ = some ⟨Storage.integral, ⟨1, 2⟩, 7, -35⟩ := by
  rw [(multiply_divide_value intmax_storage (7 : Nat) Storage.integral Storage.integral ⟨2, 3⟩
    ⟨3, 4⟩ 1 2 5 (-7) (by decide) (by decide)).1]
  decide

/-! ## Properties that combine the operators and the conversions -/

/-- C21. For two integral quantities `a`, `b` of the same units at ratios in
lowest terms, with conversions to the common type that pass the overflow
guard and do not overflow, a non-zero divisor and a representable quotient:
`a / b` is the truncated quotient `q` of the rescaled magnitudes, `q * b` is
`b` with its magnitude times `q`, `a % b` is the quantity at `ratio_gcd R1 R2`
with the remainder of the rescaled magnitudes, their sum is the quantity at
`ratio_gcd R1 R2` with the rescaled magnitude of `a`, and it compares equal to
`a`: `(a / b) * b + (a % b) == a` is true. -/
theorem quotient_remainder_consistent {U : Type} [DecidableEq U] (u : U) (R1 R2 : Ratio)
    (ca cb : Int) (h1 : R1.wf) (h2 : R2.wf)
    (ho1 : __no_overflow.value R1 (ratio_gcd R1 R2) = true)
    (ho2 : __no_overflow.value R2 (ratio_gcd R1 R2) = true)
    (m1 : fits (ca * (ratio_divide R1 (ratio_gcd R1 R2)).num))
    (m2 : fits (cb * (ratio_divide R2 (ratio_gcd R1 R2)).num))
    (hcb : cb ≠ 0)
    (hq : fits ((ca * (ratio_divide R1 (ratio_gcd R1 R2)).num).tdiv
      (cb * (ratio_divide R2 (ratio_gcd R1 R2)).num))) :
    operator_div intmax_storage (⟨Storage.integral, R1, u, ca⟩ : quantity Int U)
        ⟨Storage.integral, R2, u, cb⟩ =
        some ((ca * (ratio_divide R1 (ratio_gcd R1 R2)).num).tdiv
          (cb * (ratio_divide R2 (ratio_gcd R1 R2)).num)) ∧
      operator_scalar_times intmax_storage
        (Operand.of_scalar Storage.integral
          ((ca * (ratio_divide R1 (ratio_gcd R1 R2)).num).tdiv
            (cb * (ratio_divide R2 (ratio_gcd R1 R2)).num)))
        (⟨Storage.integral, R2, u, cb⟩ : quantity Int U) =
        some ⟨Storage.integral, R2, u,
          cb * (ca * (ratio_divide R1 (ratio_gcd R1 R2)).num).tdiv
            (cb * (ratio_divide R2 (ratio_gcd R1 R2)).num)⟩ ∧
      operator_mod intmax_storage (⟨Storage.integral, R1, u, ca⟩ : quantity Int U)
        ⟨Storage.integral, R2, u, cb⟩ =
        some ⟨Storage.integral, ratio_gcd R1 R2, u,
          (ca * (ratio_divide R1 (ratio_gcd R1 R2)).num).tmod
            (cb * (ratio_divide R2 (ratio_gcd R1 R2)).num)⟩ ∧
      operator_plus intmax_storage
        (⟨Storage.integral, R2, u,
          cb * (ca * (ratio_divide R1 (ratio_gcd R1 R2)).num).tdiv
            (cb * (ratio_divide R2 (ratio_gcd R1 R2)).num)⟩ : quantity Int U)
        ⟨Storage.integral, ratio_gcd R1 R2, u,
          (ca * (ratio_divide R1 (ratio_gcd R1 R2)).num).tmod
            (cb * (ratio_divide R2 (ratio_gcd R1 R2)).num)⟩ =
        some ⟨Storage.integral, ratio_gcd R1 R2, u,
          ca * (ratio_divide R1 (ratio_gcd R1 R2)).num⟩ ∧
      operator_eq intmax_storage
        (⟨Storage.integral, ratio_gcd R1 R2, u,
          ca * (ratio_divide R1 (ratio_gcd R1 R2)).num⟩ : quantity Int U)
        ⟨Storage.integral, R1, u, ca⟩ = some true ∧
      ((operator_div intmax_storage (⟨Storage.integral, R1, u, ca⟩ : quantity Int U)
          ⟨Storage.integral, R2, u, cb⟩).bind fun q =>
        (operator_scalar_times intmax_storage (Operand.of_scalar Storage.integral q)
          (⟨Storage.integral, R2, u, cb⟩ : quantity Int U)).bind fun p =>
        (operator_mod intmax_storage (⟨Storage.integral, R1, u, ca⟩ : quantity Int U)
          ⟨Storage.integral, R2, u, cb⟩).bind fun r =>
        (operator_plus intmax_storage p r).bind fun s =>
        operator_eq intmax_storage s ⟨Storage.integral, R1, u, ca⟩) = some true := by
  have hG := ratio_gcd_wf h1 h2
  have hGpos := Ratio.val_pos hG
  have hf := ratio_gcd_finer h1 h2
  obtain ⟨d1, -, v1⟩ := factor_to_common h1 hG hf.1.1 hf.1.2
  obtain ⟨d2, p2, v2⟩ := factor_to_common h2 hG hf.2.1 hf.2.2
  have n1 := fits_num_of_no_overflow h1 hG ho1
  have n2 := fits_num_of_no_overflow h2 hG ho2
  have abs1 := ratio_gcd_absorb h1 hG hf.1.1 hf.1.2
  have abs2 := ratio_gcd_absorb h2 hG hf.2.1 hf.2.2
  have hself := ratio_divide_self hG.1 hG.2.1
  have oG := no_overflow_self hG.1 hG.2.1
  have c1 := quantity_cast_impl_intmax_of_den_one ca d1 n1 m1
  have c2 := quantity_cast_impl_intmax_of_den_one cb d2 n2 m2
  have hne : cb * (ratio_divide R2 (ratio_gcd R1 R2)).num ≠ 0 := mul_ne_zero hcb p2.ne'
  have hrem := fits_tmod (cb * (ratio_divide R2 (ratio_gcd R1 R2)).num) m1
  have hqB : fits (cb * (ca * (ratio_divide R1 (ratio_gcd R1 R2)).num).tdiv
      (cb * (ratio_divide R2 (ratio_gcd R1 R2)).num) *
      (ratio_divide R2 (ratio_gcd R1 R2)).num) := by
    have e : cb * (ca * (ratio_divide R1 (ratio_gcd R1 R2)).num).tdiv
        (cb * (ratio_divide R2 (ratio_gcd R1 R2)).num) *
        (ratio_divide R2 (ratio_gcd R1 R2)).num =
        ca * (ratio_divide R1 (ratio_gcd R1 R2)).num -
          (ca * (ratio_divide R1 (ratio_gcd R1 R2)).num).tmod
            (cb * (ratio_divide R2 (ratio_gcd R1 R2)).num) := by
      rw [← tdiv_mul_eq_sub_tmod]
      ring
    rw [e]
    exact fits_sub_tmod _ m1
  have hqc : fits (cb * (ca * (ratio_divide R1 (ratio_gcd R1 R2)).num).tdiv
      (cb * (ratio_divide R2 (ratio_gcd R1 R2)).num)) :=
    fits_of_fits_mul (by omega) hqB
  have hsum : cb * (ca * (ratio_divide R1 (ratio_gcd R1 R2)).num).tdiv
      (cb * (ratio_divide R2 (ratio_gcd R1 R2)).num) *
      (ratio_divide R2 (ratio_gcd R1 R2)).num +
      (ca * (ratio_divide R1 (ratio_gcd R1 R2)).num).tmod
        (cb * (ratio_divide R2 (ratio_gcd R1 R2)).num) =
      ca * (ratio_divide R1 (ratio_gcd R1 R2)).num := by
    have := Int.tdiv_add_tmod' (ca * (ratio_divide R1 (ratio_gcd R1 R2)).num)
      (cb * (ratio_divide R2 (ratio_gcd R1 R2)).num)
    linarith
  -- the quotient
  have e_div : operator_div intmax_storage (⟨Storage.integral, R1, u, ca⟩ : quantity Int U)
      ⟨Storage.integral, R2, u, cb⟩ =
      some ((ca * (ratio_divide R1 (ratio_gcd R1 R2)).num).tdiv
        (cb * (ratio_divide R2 (ratio_gcd R1 R2)).num)) := by
    rw [operator_div_common intmax_storage Storage.integral Storage.integral u R1 R2 ca cb
      h1 h2 ho1 ho2, c1, c2]
    simp only [intmax_storage, wrap_of_fits hq]
  -- the quotient times the divisor
  have e_mul : operator_scalar_times intmax_storage
      (Operand.of_scalar Storage.integral
        ((ca * (ratio_divide R1 (ratio_gcd R1 R2)).num).tdiv
          (cb * (ratio_divide R2 (ratio_gcd R1 R2)).num)))
      (⟨Storage.integral, R2, u, cb⟩ : quantity Int U) =
      some ⟨Storage.integral, R2, u,
        cb * (ca * (ratio_divide R1 (ratio_gcd R1 R2)).num).tdiv
          (cb * (ratio_divide R2 (ratio_gcd R1 R2)).num)⟩ := by
    simp only [operator_scalar_times]
    rw [operator_times_scalar_eq intmax_storage Storage.integral Storage.integral u R2 cb _ h2]
    simp only [intmax_storage, wrap_of_fits hqc, common_type]
  -- the remainder
  have e_mod : operator_mod intmax_storage (⟨Storage.integral, R1, u, ca⟩ : quantity Int U)
      ⟨Storage.integral, R2, u, cb⟩ =
      some ⟨Storage.integral, ratio_gcd R1 R2, u,
        (ca * (ratio_divide R1 (ratio_gcd R1 R2)).num).tmod
          (cb * (ratio_divide R2 (ratio_gcd R1 R2)).num)⟩ := by
    rw [operator_mod_common intmax_storage u R1 R2 ca cb h1 h2 ho1 ho2, c1, c2]
    simp only [intmax_storage, wrap_of_fits hrem]
  -- the sum
  have e_plus : operator_plus intmax_storage
      (⟨Storage.integral, R2, u,
        cb * (ca * (ratio_divide R1 (ratio_gcd R1 R2)).num).tdiv
          (cb * (ratio_divide R2 (ratio_gcd R1 R2)).num)⟩ : quantity Int U)
      ⟨Storage.integral, ratio_gcd R1 R2, u,
        (ca * (ratio_divide R1 (ratio_gcd R1 R2)).num).tmod
          (cb * (ratio_divide R2 (ratio_gcd R1 R2)).num)⟩ =
      some ⟨Storage.integral, ratio_gcd R1 R2, u,
        ca * (ratio_divide R1 (ratio_gcd R1 R2)).num⟩ := by
    have hp := operator_plus_common intmax_storage Storage.integral Storage.integral u R2
      (ratio_gcd R1 R2)
      (cb * (ca * (ratio_divide R1 (ratio_gcd R1 R2)).num).tdiv
        (cb * (ratio_divide R2 (ratio_gcd R1 R2)).num))
      ((ca * (ratio_divide R1 (ratio_gcd R1 R2)).num).tmod
        (cb * (ratio_divide R2 (ratio_gcd R1 R2)).num))
      h2 hG (by rw [abs2.1]; exact ho2) (by rw [abs2.1]; exact oG)
    rw [abs2.1, hself] at hp
    rw [hp, quantity_cast_impl_intmax_of_den_one _ d2 n2 hqB]
    have one : quantity_cast_impl intmax_storage ⟨1, 1⟩
        ((ca * (ratio_divide R1 (ratio_gcd R1 R2)).num).tmod
          (cb * (ratio_divide R2 (ratio_gcd R1 R2)).num)) =
        (ca * (ratio_divide R1 (ratio_gcd R1 R2)).num).tmod
          (cb * (ratio_divide R2 (ratio_gcd R1 R2)).num) := rfl
    rw [one]
    simp only [intmax_storage, common_type]
    rw [hsum, wrap_of_fits m1]
  -- the comparison
  have e_eq : operator_eq intmax_storage
      (⟨Storage.integral, ratio_gcd R1 R2, u,
        ca * (ratio_divide R1 (ratio_gcd R1 R2)).num⟩ : quantity Int U)
      ⟨Storage.integral, R1, u, ca⟩ = some true := by
    have hcmp := (integral_operands_compare u (ratio_gcd R1 R2) R1
      (ca * (ratio_divide R1 (ratio_gcd R1 R2)).num) ca hG h1
      (by rw [abs1.2]; exact oG) (by rw [abs1.2]; exact ho1)
      (by rw [abs1.2, hself]; simpa using m1) (by rw [abs1.2]; exact m1)).1
    rw [hcmp]
    congr 1
    rw [decide_eq_true_eq]
    exact (value_eq_scaled ca v1).symm
  refine ⟨e_div, e_mul, e_mod, e_plus, e_eq, ?_⟩
  rw [e_div]
  simp only [Option.some_bind, Option.bind_eq_bind]
  rw [e_mul]
  simp only [Option.some_bind, Option.bind_eq_bind]
  rw [e_mod]
  simp only [Option.some_bind, Option.bind_eq_bind]
  rw [e_plus]
  simp only [Option.some_bind, Option.bind_eq_bind]
  exact e_eq

/-- Witness of C21: `a` is `-7500` at ratio `1/1000` and `b` is `2` at ratio
`1`; the quotient is `-3`, the remainder `-1500` at ratio `1/1000`, and
`(a / b) * b + (a % b) == a` is true. -/
theorem quotient_remainder_consistent_witness :
    operator_div intmax_storage (⟨Storage.integral, ⟨1, 1000⟩, (), -7500⟩ : quantity Int Unit)
        ⟨Storage.integral, ⟨1, 1⟩, (), 2⟩ = some (-3) ∧
      operator_mod intmax_storage (⟨Storage.integral, ⟨1, 1000⟩, (), -7500⟩ : quantity Int Unit)
        ⟨Storage.integral, ⟨1, 1⟩, (), 2⟩ = some ⟨Storage.integral, ⟨1, 1000⟩, (), -1500⟩ ∧
      ((operator_div intmax_storage
          (⟨Storage.integral, ⟨1, 1000⟩, (), -7500⟩ : quantity Int Unit)
          ⟨Storage.integral, ⟨1, 1⟩, (), 2⟩).bind fun q =>
        (operator_scalar_times intmax_storage (Operand.of_scalar Storage.integral q)
          (⟨Storage.integral, ⟨1, 1⟩, (), 2⟩ : quantity Int Unit)).bind fun p =>
        (operator_mod intmax_storage
          (⟨Storage.integral, ⟨1, 1000⟩, (), -7500⟩ : quantity Int Unit)
          ⟨Storage.integral, ⟨1, 1⟩, (), 2⟩).bind fun r =>
        (operator_plus intmax_storage p r).bind fun s =>
        operator_eq intmax_storage s ⟨Storage.integral, ⟨1, 1000⟩, (), -7500⟩) = some true := by
  obtain ⟨hG, o1, o2⟩ := milli_unit_setup
  have h := quotient_remainder_consistent () ⟨1, 1000⟩ ⟨1, 1⟩ (-7500) 2 (by decide) (by decide)
    o1 o2 (by rw [hG]; decide) (by rw [hG]; decide) (by decide) (by rw [hG]; decide)
  refine ⟨?_, ?_, h.2.2.2.2.2⟩
  · rw [h.1, hG]
    decide
  · rw [h.2.2.1, hG]
    decide

/-- C22. For two ratios with positive components in lowest terms that pass the
overflow guard, the pair `(n1' * d2', n2' * d1')` that `__no_overflow` forms
from the numerators divided by `gcd(n1, n2)` and the denominators divided by
`gcd(d1, d2)` is positive and in lowest terms, `__no_overflow::type` is that
pair and is `std::ratio_divide<R1, R2>`, the factor of `quantity_cast`; so
its denominator is one exactly when that of the factor is, and the enabled
converting constructor scales by the ratio its condition tested. -/
theorem guard_ratio_is_cast_ratio (R1 R2 : Ratio) (h1 : R1.wf) (h2 : R2.wf)
    (hv : __no_overflow.value R1 R2 = true) :
    (__no_overflow.__n1 R1 R2 = R1.num / (Int.gcd R1.num R2.num : Int) ∧
      __no_overflow.__d1 R1 R2 = R1.den / (Int.gcd R1.den R2.den : Int) ∧
      __no_overflow.__n2 R1 R2 = R2.num / (Int.gcd R1.num R2.num : Int) ∧
      __no_overflow.__d2 R1 R2 = R2.den / (Int.gcd R1.den R2.den : Int)) ∧
    0 < __no_overflow.__n1 R1 R2 * __no_overflow.__d2 R1 R2 ∧
    0 < __no_overflow.__n2 R1 R2 * __no_overflow.__d1 R1 R2 ∧
    Int.gcd (__no_overflow.__n1 R1 R2 * __no_overflow.__d2 R1 R2)
      (__no_overflow.__n2 R1 R2 * __no_overflow.__d1 R1 R2) = 1 ∧
    __no_overflow.type R1 R2 =
      ⟨__no_overflow.__n1 R1 R2 * __no_overflow.__d2 R1 R2,
        __no_overflow.__n2 R1 R2 * __no_overflow.__d1 R1 R2⟩ ∧
    (__no_overflow.type R1 R2).val = R1.val / R2.val ∧
    __no_overflow.type R1 R2 = ratio_divide R1 R2 ∧
    ((__no_overflow.type R1 R2).den = 1 ↔ (ratio_divide R1 R2).den = 1) ∧
    (∀ (α U : Type) [DecidableEq U] (A : Arith α) (S S2 : Storage) (u : U) (c : α),
      quantity.convert_enabled S R2 S2 R1 = true →
        quantity.convert A S R2 u ⟨S2, R1, u, c⟩ =
          some ⟨S, R2, u, quantity_cast_impl A (__no_overflow.type R1 R2) c⟩) := by
  have hp := no_overflow_parts h1.1 h1.2.1 h2.1 h2.2.1
  obtain ⟨p1, p2, p3, p4⟩ := no_overflow_parts_pos h1.1 h1.2.1 h2.1 h2.2.1
  have ht := no_overflow_type_eq h1 h2 hv
  have he := ratio_divide_explicit h1 h2
  have hw := ratio_divide_wf h1 h2
  have hval := ratio_divide_val h1 h2
  refine ⟨hp, ?_, ?_, ?_, ?_, ?_, ht, ?_, ?_⟩
  · rw [hp.1, hp.2.2.2]; exact mul_pos p1 p4
  · rw [hp.2.2.1, hp.2.1]; exact mul_pos p3 p2
  · rw [hp.1, hp.2.2.2, hp.2.2.1, hp.2.1]
    rw [he] at hw
    exact hw.2.2
  · rw [ht, he, hp.1, hp.2.2.2, hp.2.2.1, hp.2.1]
  · rw [ht]; exact hval
  · rw [ht]
  · intro α U _ A S S2 u c hen
    simp only [quantity.convert, hen, quantity_cast, quantity.count, if_true, and_self,
      Option.map_some']
    rw [ht]

/-- Witness of C22 at the ratios `6/35` and `4/21`: the guard forms the pair
`(9, 10)`, which is `(6/35) / (4/21)` in lowest terms. -/
theorem guard_ratio_is_cast_ratio_witness :
    __no_overflow.type ⟨6, 35⟩ ⟨4, 21⟩ = ⟨9, 10⟩ ∧ ratio_divide ⟨6, 35⟩ ⟨4, 21⟩ = ⟨9, 10⟩ := by
  have hv : __no_overflow.value ⟨6, 35⟩ ⟨4, 21⟩ = true :=
    (no_overflow_value_iff (by decide) (by decide) (by decide) (by decide)).mpr (by decide)
  have h := (guard_ratio_is_cast_ratio ⟨6, 35⟩ ⟨4, 21⟩ (by decide) (by decide) hv).2.2.2.2.2.2.1
  have e : ratio_divide ⟨6, 35⟩ ⟨4, 21⟩ = ⟨9, 10⟩ := by decide
  exact ⟨h.trans e, e⟩

/-- C23. On integral storage, when `R1 / R2` reduces to a positive integer `k`
and `c`, `k` and `c * k` are representable, converting the magnitude `c` from
ratio `R1` to ratio `R2` and the result back to ratio `R1` with
`quantity_cast` returns `c`; converting `c` from ratio `R2` to ratio `R1` and
back returns `c - (c rem k)`, which is `c` exactly when `k` divides `c`. -/
theorem refine_coarsen_round_trip {U : Type} [DecidableEq U] (u : U) (R1 R2 : Ratio) (c : Int)
    (h1 : R1.wf) (h2 : R2.wf) (hk : (ratio_divide R1 R2).den = 1)
    (hn : fits (ratio_divide R1 R2).num) (hc : fits c)
    (hm : fits (c * (ratio_divide R1 R2).num)) :
    0 < (ratio_divide R1 R2).num ∧
      (((ratio_divide R1 R2).num : Int) : ℚ) = R1.val / R2.val ∧
      ratio_divide R2 R1 = ⟨1, (ratio_divide R1 R2).num⟩ ∧
      quantity_cast intmax_storage Storage.integral R2 u ⟨Storage.integral, R1, u, c⟩ =
        some ⟨Storage.integral, R2, u, c * (ratio_divide R1 R2).num⟩ ∧
      (quantity_cast intmax_storage Storage.integral R2 u ⟨Storage.integral, R1, u, c⟩).bind
          (quantity_cast intmax_storage Storage.integral R1 u) =
        some ⟨Storage.integral, R1, u, c⟩ ∧
      quantity_cast intmax_storage Storage.integral R1 u ⟨Storage.integral, R2, u, c⟩ =
        some ⟨Storage.integral, R1, u, c.tdiv (ratio_divide R1 R2).num⟩ ∧
      (quantity_cast intmax_storage Storage.integral R1 u ⟨Storage.integral, R2, u, c⟩).bind
          (quantity_cast intmax_storage Storage.integral R2 u) =
        some ⟨Storage.integral, R2, u, c - c.tmod (ratio_divide R1 R2).num⟩ ∧
      (c - c.tmod (ratio_divide R1 R2).num = c ↔ (ratio_divide R1 R2).num ∣ c) := by
  have hw := ratio_divide_wf h1 h2
  have hsw := ratio_divide_swap h1 h2
  rw [hk] at hsw
  have hval := ratio_divide_val h1 h2
  have hnum : (((ratio_divide R1 R2).num : Int) : ℚ) = R1.val / R2.val := by
    rw [← hval]
    unfold Ratio.val
    rw [hk]
    simp
  have f1 : fits (1 : Int) := fits_one
  have up : ∀ x : Int, fits (x * (ratio_divide R1 R2).num) →
      quantity_cast_impl intmax_storage (ratio_divide R1 R2) x =
        x * (ratio_divide R1 R2).num :=
    fun x hx => quantity_cast_impl_intmax_of_den_one x hk hn hx
  have down : ∀ x : Int, fits x →
      quantity_cast_impl intmax_storage ⟨1, (ratio_divide R1 R2).num⟩ x =
        x.tdiv (ratio_divide R1 R2).num := by
    intro x hx
    have h := quantity_cast_impl_exact ⟨1, (ratio_divide R1 R2).num⟩ x f1 hn hw.1 hx
      (by simpa using hx)
    simpa using h
  have e1 : quantity_cast intmax_storage Storage.integral R2 u
      ⟨Storage.integral, R1, u, c⟩ =
        some ⟨Storage.integral, R2, u, c * (ratio_divide R1 R2).num⟩ := by
    simp only [quantity_cast, quantity.count, if_true]
    rw [up c hm]
  have e2 : quantity_cast intmax_storage Storage.integral R1 u
      ⟨Storage.integral, R2, u, c⟩ =
        some ⟨Storage.integral, R1, u, c.tdiv (ratio_divide R1 R2).num⟩ := by
    simp only [quantity_cast, quantity.count, if_true]
    rw [hsw, down c hc]
  have hback : fits (c.tdiv (ratio_divide R1 R2).num * (ratio_divide R1 R2).num) := by
    rw [tdiv_mul_eq_sub_tmod]
    exact fits_sub_tmod _ hc
  refine ⟨hw.1, hnum, hsw, e1, ?_, e2, ?_, ?_⟩
  · rw [e1]
    simp only [Option.some_bind, Option.bind_eq_bind, quantity_cast, quantity.count, if_true]
    rw [hsw, down _ hm, Int.mul_tdiv_cancel c hw.1.ne']
  · rw [e2]
    simp only [Option.some_bind, Option.bind_eq_bind, quantity_cast, quantity.count, if_true]
    rw [up _ hback, tdiv_mul_eq_sub_tmod]
  · rw [Int.dvd_iff_tmod_eq_zero]
    constructor <;> intro h <;> omega

/-- Witness of C23 at `c = -7`, from ratio `3/2` to ratio `1/4` and back, where
`k = 6`: refining first returns `-7`, coarsening first returns `-6`. -/
theorem refine_coarsen_round_trip_witness :
    (quantity_cast intmax_storage Storage.integral ⟨1, 4⟩ ()
          ⟨Storage.integral, ⟨3, 2⟩, (), -7⟩).bind
        (quantity_cast intmax_storage Storage.integral ⟨3, 2⟩ ()) =
        some ⟨Storage.integral, ⟨3, 2⟩, (), -7⟩ ∧
      (quantity_cast intmax_storage Storage.integral ⟨3, 2⟩ ()
          ⟨Storage.integral, ⟨1, 4⟩, (), -7⟩).bind
        (quantity_cast intmax_storage Storage.integral ⟨1, 4⟩ ()) =
        some ⟨Storage.integral, ⟨1, 4⟩, (), -6⟩ := by
  have h := refine_coarsen_round_trip () ⟨3, 2⟩ ⟨1, 4⟩ (-7) (by decide) (by decide) (by decide)
    (by decide) (by decide) (by decide)
  refine ⟨h.2.2.2.2.1, ?_⟩
  rw [h.2.2.2.2.2.2.1]
  decide

end si
